import Mathlib

/-!
Verification of the stock-dashboard bulk downloader (`download_data.py`).

The script is shallowly embedded as pure Lean functions:
* the on-disk state (artifact files, the `cache_meta.json` date ledger, the
  `info_cache.json` company-info cache, per-grid manifests and the grid index)
  is a `Disk` record of association lists keyed by file name / dictionary key;
* the network (`yf.download` / `yf.Ticker(t).info`) is an `Oracle` of
  per-symbol results, where `Except.error` stands for a raised exception;
* every externally visible action of a run (bulk-download call, info fetch,
  artifact write, ledger assignment, cache flush, manifest write) is recorded
  in an event trace, so ordering properties of the script can be stated;
* Python `float` prices are idealised as exact rationals, and `round(x, 4)`
  as round-half-even on rationals.

Python string methods (`strip`, `upper`, `startswith`) and `sorted` are
re-implemented over character lists; Python dictionaries are association
lists with first-match lookup and replace-in-place assignment.
-/

namespace StockDash

/-- Model of Python `str.strip()`: drop whitespace from both ends. -/
def pyStrip (s : String) : String :=
  ⟨((s.data.dropWhile Char.isWhitespace).reverse.dropWhile Char.isWhitespace).reverse⟩

/-- Model of Python `str.upper()` (per-character upcasing). -/
def pyUpper (s : String) : String :=
  ⟨s.data.map Char.toUpper⟩

/-- Model of Python `line.startswith("#")`. -/
def startsWithHash (s : String) : Bool :=
  s.data.head? == some '#'

/-- Lexicographic comparison of character lists by code point, as Python
compares strings. -/
def charListLt : List Char → List Char → Bool
  | [], [] => false
  | [], _ :: _ => true
  | _ :: _, [] => false
  | a :: as, b :: bs =>
    if a.toNat < b.toNat then true
    else if b.toNat < a.toNat then false
    else charListLt as bs

/-- Python `s1 < s2` on strings. -/
def strLt (a b : String) : Bool := charListLt a.data b.data

/-- Stable insertion of an element into a sorted list (ascending). -/
def insertSorted (a : String) : List String → List String
  | [] => [a]
  | b :: bs => if strLt a b || (a == b) then a :: b :: bs else b :: insertSorted a bs

/-- Model of Python `sorted` on a list of strings. -/
def pySorted (l : List String) : List String := l.foldr insertSorted []

/-- `load_tickers_from_file`: strip each line, skip blank lines and `#`
comments, upper-case the rest (the file is given as its list of lines). -/
def load_tickers_from_file (lines : List String) : List String :=
  ((lines.map pyStrip).filter (fun l => !(l == "") && !startsWithHash l)).map pyUpper

/-- First-match lookup in an association list (Python `dict.get`). -/
def dictGet {α : Type} : List (String × α) → String → Option α
  | [], _ => none
  | (k', v) :: rest, k => if k' = k then some v else dictGet rest k

/-- Python `d[k] = v`: replace the first binding of `k` in place, or append. -/
def dictSet {α : Type} : List (String × α) → String → α → List (String × α)
  | [], k, v => [(k, v)]
  | (k', v') :: rest, k, v =>
    if k' = k then (k, v) :: rest else (k', v') :: dictSet rest k v

/-- Python `d.update(add)`: assign every binding of `add` into `d` in order. -/
def dictUpdate {α : Type} (d add : List (String × α)) : List (String × α) :=
  add.foldl (fun acc p => dictSet acc p.1 p.2) d

/-- `CHUNK_SIZE = 100`. -/
def CHUNK_SIZE : Nat := 100

/-- The `INTERVALS` table: (label, yfinance period, yfinance interval,
filename suffix). -/
def INTERVALS : List (String × String × String × String) :=
  [("daily", "2y", "1d", "daily"), ("weekly", "5y", "1wk", "weekly")]

/-- `cache_key(ticker, interval_label)`. -/
def cache_key (ticker interval_label : String) : String :=
  ticker ++ "_" ++ interval_label

/-- The artifact file name `f"{ticker}_{suffix}.json"` (relative to the data
directory). -/
def artifact_file (ticker suffix : String) : String :=
  ticker ++ "_" ++ suffix ++ ".json"

/-- One parsed OHLCV bar, prices as exact rationals. -/
structure Row where
  t : String
  o : ℚ
  h : ℚ
  l : ℚ
  c : ℚ
  v : ℤ
deriving DecidableEq, Repr

/-- An OHLCV bar after `enrich_with_sma` added the three SMA fields. -/
structure EnrichedRow where
  t : String
  o : ℚ
  h : ℚ
  l : ℚ
  c : ℚ
  v : ℤ
  sma10 : Option ℚ
  sma50 : Option ℚ
  sma250 : Option ℚ
deriving DecidableEq, Repr

/-- The company-info record built by `fetch_info`. -/
structure Info where
  shortName : String
  sector : String
  industry : String
deriving DecidableEq, Repr

/-- The raw `yf.Ticker(t).info` dictionary, restricted to the keys the script
reads; `none` models an absent key. -/
structure RawInfo where
  shortName : Option String
  sector : Option String
  industry : Option String
deriving DecidableEq, Repr

/-- The JSON document written for one (ticker, interval) pair. -/
structure Artifact where
  ticker : String
  info : Info
  ohlcv : List EnrichedRow
deriving DecidableEq, Repr

/-- The JSON document `manifest_{name}.json`. -/
structure Manifest where
  grid : String
  tickers : List String
  generated : String
deriving DecidableEq, Repr

/-- The JSON document `grids.json`. -/
structure GridsIndex where
  grids : List String
  generated : String
deriving DecidableEq, Repr

/-- The data directory: artifact files, the two cache files, the manifests and
the grid index, each keyed by name. -/
structure Disk where
  artifacts : List (String × Artifact)
  cacheFile : List (String × String)
  infoFile : List (String × Info)
  manifests : List (String × Manifest)
  gridsIndex : Option GridsIndex
deriving DecidableEq, Repr

/-- The external data source: per-symbol series download and per-symbol raw
info; `Except.error` models a raised exception / unusable result for that
symbol. -/
structure Oracle where
  series : String → Except Unit (List Row)
  info : String → Except Unit RawInfo

/-- Externally visible events of one run, in program order. -/
inductive Ev where
  | fetch (label : String) (chunk : List String)
  | infoFetch (ticker : String)
  | writeArtifact (ticker suffix : String)
  | ledgerSet (ticker label : String)
  | flushLedger (label : String)
  | flushInfo (label : String)
  | writeManifest (grid : String)
  | writeIndex
deriving DecidableEq, Repr

/-- `needs_update(ticker, interval_label, date_cache)`: the ledger date for the
pair differs from today, or the artifact file does not exist. -/
def needs_update (ticker interval_label : String) (date_cache : List (String × String))
    (today : String) (artifacts : List (String × Artifact)) : Bool :=
  (dictGet date_cache (cache_key ticker interval_label) != some today)
    || !(dictGet artifacts (artifact_file ticker interval_label)).isSome

/-- `sma(values, n)`: a list of the same length, `None` below index `n-1`, and
the 4-decimal-rounded mean of the window `values[i-n+1 : i+1]` from there on. -/
def round_half_even (q : ℚ) : ℤ :=
  let f := Int.floor q
  let frac := q - f
  if frac < 1/2 then f
  else if 1/2 < frac then f + 1
  else if f % 2 = 0 then f else f + 1

/-- Python `round(q, 4)` on an exact rational. -/
def round4 (q : ℚ) : ℚ := (round_half_even (q * 10000) : ℚ) / 10000

def sma (values : List ℚ) (n : Nat) : List (Option ℚ) :=
  (List.range values.length).map (fun i =>
    if i < n - 1 then none
    else some (round4 (((values.drop (i + 1 - n)).take n).sum / (n : ℚ))))

/-- `enrich_with_sma(rows)`: attach `sma10`, `sma50`, `sma250` computed from
the closing prices. -/
def enrich_with_sma (rows : List Row) : List EnrichedRow :=
  let closes := rows.map (fun r => r.c)
  let v10 := sma closes 10
  let v50 := sma closes 50
  let v250 := sma closes 250
  rows.enum.map (fun p =>
    { t := p.2.t, o := p.2.o, h := p.2.h, l := p.2.l, c := p.2.c, v := p.2.v
      sma10 := v10.getD p.1 none
      sma50 := v50.getD p.1 none
      sma250 := v250.getD p.1 none })

/-- `bulk_download(tickers, ...)`: per-ticker results of one `yf.download`
call. A symbol whose parse raises is skipped with a warning; a symbol with no
rows is not added to the result mapping. The single-ticker branch of the
source parses the frame directly but admits the same per-symbol outcomes. -/
def bulk_download (tickers : List String) (series : String → Except Unit (List Row)) :
    List (String × List Row) :=
  match tickers with
  | [t] =>
    match series t with
    | .error _ => []
    | .ok rows => if rows.isEmpty then [] else [(t, rows)]
  | _ =>
    tickers.foldl (fun results t =>
      match series t with
      | .error _ => results
      | .ok rows => if rows.isEmpty then results else results ++ [(t, rows)]) []

/-- `fetch_info(ticker, info_cache)`: return the cached record, or fetch the
raw info (an exception yields the placeholder record), cache it and return it.
Also returns the network events this produced. -/
def fetch_info (ticker : String) (info_cache : List (String × Info)) (oracle : Oracle) :
    Info × List (String × Info) × List Ev :=
  match dictGet info_cache ticker with
  | some i => (i, info_cache, [])
  | none =>
    let info : Info :=
      match oracle.info ticker with
      | .ok raw =>
        { shortName := raw.shortName.getD ticker
          sector := raw.sector.getD "—"
          industry := raw.industry.getD "—" }
      | .error _ => { shortName := ticker, sector := "—", industry := "—" }
    (info, dictSet info_cache ticker info, [.infoFetch ticker])

/-- Slice a list into `CHUNK_SIZE`-sized pieces (fuel-structured so that it
computes by kernel reduction). -/
def chunkedAux : Nat → List String → List (List String)
  | _, [] => []
  | 0, l => [l]
  | fuel + 1, x :: xs =>
    (x :: xs.take (CHUNK_SIZE - 1)) :: chunkedAux fuel (xs.drop (CHUNK_SIZE - 1))

/-- The chunks `to_update[i : i + CHUNK_SIZE]` of the main download loop. -/
def chunked (l : List String) : List (List String) := chunkedAux l.length l

/-- The in-memory mutable state of `main`: the two loaded caches and the data
directory. -/
structure MState where
  date_cache : List (String × String)
  info_cache : List (String × Info)
  disk : Disk
deriving DecidableEq, Repr

/-- The per-ticker body of the interval loop of `main`: skip (and record as
failed) a ticker absent from the merged bulk result; otherwise enrich, fetch
info, write the artifact, and record today's date in the ledger. -/
def process_ticker (label suffix today : String) (oracle : Oracle)
    (all_ohlcv : List (String × List Row))
    (acc : MState × List Ev × List String × List String) (ticker : String) :
    MState × List Ev × List String × List String :=
  let st := acc.1
  let evs := acc.2.1
  let updated := acc.2.2.1
  let failed := acc.2.2.2
  match dictGet all_ohlcv ticker with
  | none => (st, evs, updated, failed ++ [ticker])
  | some rows =>
    let enriched := enrich_with_sma rows
    let r := fetch_info ticker st.info_cache oracle
    let art : Artifact := { ticker := ticker, info := r.1, ohlcv := enriched }
    let st' : MState :=
      { date_cache := dictSet st.date_cache (cache_key ticker label) today
        info_cache := r.2.1
        disk := { st.disk with
                    artifacts := dictSet st.disk.artifacts (artifact_file ticker suffix) art } }
    (st', evs ++ r.2.2 ++ [.writeArtifact ticker suffix, .ledgerSet ticker label],
     updated ++ [ticker], failed)

/-- One iteration of the `for label, period, interval, suffix in INTERVALS`
loop of `main`: staleness filter, chunked bulk download, per-ticker
processing, then `save_json` of both caches. Returns the new state, the
events, and the `updated` / `failed` summary lists. -/
def process_interval (label suffix : String) (pool : List String) (today : String)
    (oracle : Oracle) (st : MState) :
    MState × List Ev × List String × List String :=
  let to_update := pool.filter (fun t => needs_update t label st.date_cache today st.disk.artifacts)
  if to_update.isEmpty then (st, [], [], [])
  else
    let chunks := chunked to_update
    let all_ohlcv := chunks.foldl (fun acc c => dictUpdate acc (bulk_download c oracle.series)) []
    let r := to_update.foldl (process_ticker label suffix today oracle all_ohlcv) (st, [], [], [])
    let st' := r.1
    let st'' : MState :=
      { st' with disk := { st'.disk with cacheFile := st'.date_cache, infoFile := st'.info_cache } }
    (st'', chunks.map (fun c => Ev.fetch label c) ++ r.2.1
             ++ [.flushLedger label, .flushInfo label],
     r.2.2.1, r.2.2.2)

/-- The input of one run: the discovered grids (name and file lines, in the
sorted discovery order of `find_ticker_files`), today's date, the manifest
timestamp `datetime.now()`, and the network. -/
structure RunInput where
  gridFiles : List (String × List String)
  today : String
  now : String
  oracle : Oracle

/-- The observable outcome of one run: exit code (`some 1` when the run
aborted for lack of grids, `none` when it completed), final disk, event trace,
and the per-interval (label, updated, failed) summaries. -/
structure RunResult where
  exit : Option Nat
  disk : Disk
  trace : List Ev
  results : List (String × List String × List String)

/-- `main()`: abort with exit code 1 when no ticker files exist; otherwise
load the grids, deduplicate the ticker pool, run both interval passes, and
rewrite every manifest and the grid index with one shared timestamp. -/
def main (inp : RunInput) (disk0 : Disk) : RunResult :=
  if inp.gridFiles.isEmpty then
    { exit := some 1, disk := disk0, trace := [], results := [] }
  else
    let grid_tickers := inp.gridFiles.map (fun g => (g.1, load_tickers_from_file g.2))
    let pool := pySorted ((grid_tickers.map (fun g => g.2)).flatten.dedup)
    let st0 : MState :=
      { date_cache := disk0.cacheFile, info_cache := disk0.infoFile, disk := disk0 }
    let r := INTERVALS.foldl
      (fun (acc : MState × List Ev × List (String × List String × List String)) iv =>
        let s := process_interval iv.1 iv.2.2.2 pool inp.today inp.oracle acc.1
        (s.1, acc.2.1 ++ s.2.1, acc.2.2 ++ [(iv.1, s.2.2.1, s.2.2.2)]))
      (st0, [], [])
    let st1 := r.1
    let manifests :=
      grid_tickers.foldl
        (fun (m : List (String × Manifest)) g =>
          let available :=
            g.2.filter (fun t => (dictGet st1.disk.artifacts (artifact_file t "daily")).isSome)
          dictSet m g.1 { grid := g.1, tickers := available, generated := inp.now })
        st1.disk.manifests
    let disk1 : Disk :=
      { st1.disk with
          manifests := manifests
          gridsIndex := some { grids := inp.gridFiles.map (fun g => g.1), generated := inp.now } }
    { exit := none
      disk := disk1
      trace := r.2.1 ++ grid_tickers.map (fun g => Ev.writeManifest g.1) ++ [.writeIndex]
      results := r.2.2 }

/-! ### Association-list (Python dict) lemmas -/

theorem dictGet_dictSet_self {α : Type} (m : List (String × α)) (k : String) (v : α) :
    dictGet (dictSet m k v) k = some v := by
  induction m with
  | nil => simp [dictSet, dictGet]
  | cons p rest ih =>
    by_cases h : p.1 = k
    · simp [dictSet, h, dictGet]
    · simp [dictSet, h, dictGet, ih]

theorem dictGet_dictSet_ne {α : Type} (m : List (String × α)) (k k' : String) (v : α)
    (h : k' ≠ k) : dictGet (dictSet m k v) k' = dictGet m k' := by
  have h' : ¬(k = k') := fun e => h e.symm
  induction m with
  | nil => simp [dictSet, dictGet, h']
  | cons p rest ih =>
    by_cases hk : p.1 = k
    · simp [dictSet, dictGet, hk, h']
    · simp [dictSet, dictGet, hk, ih]

theorem isSome_dictGet_dictSet {α : Type} (m : List (String × α)) (k k' : String) (v : α)
    (h : (dictGet m k').isSome) : (dictGet (dictSet m k v) k').isSome := by
  by_cases hk : k' = k
  · subst hk; simp [dictGet_dictSet_self]
  · rwa [dictGet_dictSet_ne _ _ _ _ hk]

/-! ### String-key lemmas: the ledger keys `{t}_daily` / `{t}_weekly` and the
artifact names `{t}_daily.json` / `{t}_weekly.json` never collide across
intervals, and determine the ticker within an interval. -/

theorem data_append (a b : String) : (a ++ b).data = a.data ++ b.data := rfl

theorem ne_of_suffix_rev_get (k : Nat) (c1 c2 : Char) (us vs : List Char)
    (h1 : us.reverse[k]? = some c1) (h2 : vs.reverse[k]? = some c2) (hne : c1 ≠ c2)
    (xs ys : List Char) : xs ++ us ≠ ys ++ vs := by
  intro h
  have hk1 : k < us.reverse.length := by
    by_contra h'
    rw [List.getElem?_eq_none (by omega)] at h1
    cases h1
  have hk2 : k < vs.reverse.length := by
    by_contra h'
    rw [List.getElem?_eq_none (by omega)] at h2
    cases h2
  have hr := congrArg List.reverse h
  rw [List.reverse_append, List.reverse_append] at hr
  have e1 : (us.reverse ++ xs.reverse)[k]? = some c1 := by
    rw [List.getElem?_append_left hk1]; exact h1
  have e2 : (vs.reverse ++ ys.reverse)[k]? = some c2 := by
    rw [List.getElem?_append_left hk2]; exact h2
  rw [hr, e2] at e1
  exact hne (Option.some.inj e1).symm

theorem string_eq_of_data_eq {a b : String} (h : a.data = b.data) : a = b := by
  cases a; cases b; exact congrArg String.mk h

theorem cache_key_daily_ne_weekly (a b : String) :
    cache_key a "daily" ≠ cache_key b "weekly" := by
  intro h
  have hd : a.data ++ "_daily".data = b.data ++ "_weekly".data := by
    have := congrArg String.data h
    simpa [cache_key, data_append, List.append_assoc] using this
  exact ne_of_suffix_rev_get 2 'i' 'k' "_daily".data "_weekly".data
    (by decide) (by decide) (by decide) _ _ hd

theorem cache_key_inj_label (a b l : String) (h : cache_key a l = cache_key b l) :
    a = b := by
  have hd : a.data ++ ("_" ++ l).data = b.data ++ ("_" ++ l).data := by
    have := congrArg String.data h
    simpa [cache_key, data_append, List.append_assoc] using this
  exact string_eq_of_data_eq (List.append_inj' hd rfl).1

theorem artifact_file_daily_ne_weekly (a b : String) :
    artifact_file a "daily" ≠ artifact_file b "weekly" := by
  intro h
  have hd : a.data ++ "_daily.json".data = b.data ++ "_weekly.json".data := by
    have := congrArg String.data h
    simpa [artifact_file, data_append, List.append_assoc] using this
  exact ne_of_suffix_rev_get 7 'i' 'k' "_daily.json".data "_weekly.json".data
    (by decide) (by decide) (by decide) _ _ hd

theorem artifact_file_inj_suffix (a b s : String) (h : artifact_file a s = artifact_file b s) :
    a = b := by
  have hd : a.data ++ ("_" ++ s ++ ".json").data = b.data ++ ("_" ++ s ++ ".json").data := by
    have := congrArg String.data h
    simpa [artifact_file, data_append, List.append_assoc] using this
  exact string_eq_of_data_eq (List.append_inj' hd rfl).1

/-! ### Chunking and sorting lemmas -/

theorem chunkedAux_flatten (fuel : Nat) (l : List String) (h : l.length ≤ fuel) :
    (chunkedAux fuel l).flatten = l := by
  induction fuel generalizing l with
  | zero =>
    cases l with
    | nil => simp [chunkedAux]
    | cons x xs => simp at h
  | succ f ih =>
    cases l with
    | nil => simp [chunkedAux]
    | cons x xs =>
      simp only [chunkedAux, List.flatten_cons]
      rw [ih _ (by simp only [List.length_drop]; simp at h; omega)]
      simp [List.take_append_drop]

theorem chunked_flatten (l : List String) : (chunked l).flatten = l :=
  chunkedAux_flatten l.length l le_rfl

theorem insertSorted_perm (a : String) (l : List String) :
    (insertSorted a l).Perm (a :: l) := by
  induction l with
  | nil => simp [insertSorted]
  | cons b bs ih =>
    simp only [insertSorted]
    by_cases hc : (strLt a b || (a == b)) = true
    · rw [if_pos hc]
    · rw [if_neg hc]
      exact (ih.cons b).trans (List.Perm.swap a b bs)

theorem pySorted_perm (l : List String) : (pySorted l).Perm l := by
  induction l with
  | nil => simp [pySorted]
  | cons a as ih =>
    simp only [pySorted, List.foldr] at *
    exact (insertSorted_perm a _).trans (ih.cons a)

theorem pySorted_nodup (l : List String) (h : l.Nodup) : (pySorted l).Nodup :=
  (pySorted_perm l).symm.nodup h

theorem mem_pySorted (l : List String) (a : String) : a ∈ pySorted l ↔ a ∈ l :=
  (pySorted_perm l).mem_iff

/-! ### Characterization of the merged bulk-download mapping -/

/-- The per-symbol outcome of one bulk download: `none` when the fetch raised
or returned an empty series, the rows otherwise. -/
def seriesResult (series : String → Except Unit (List Row)) (t : String) :
    Option (List Row) :=
  match series t with
  | .error _ => none
  | .ok rows => if rows.isEmpty then none else some rows

theorem dictGet_append {α : Type} (xs ys : List (String × α)) (t : String) :
    dictGet (xs ++ ys) t = (dictGet xs t).or (dictGet ys t) := by
  induction xs with
  | nil => simp [dictGet]
  | cons p rest ih =>
    by_cases h : p.1 = t
    · simp [dictGet, h]
    · simp [dictGet, h, ih]

theorem bulk_download_eq_fold (c : List String) (f : String → Except Unit (List Row)) :
    bulk_download c f = c.foldl (fun results u =>
      match f u with
      | .error _ => results
      | .ok rows => if rows.isEmpty then results else results ++ [(u, rows)]) [] := by
  match c with
  | [] => rfl
  | [t] =>
    simp only [bulk_download, List.foldl]
    cases f t with
    | error e => rfl
    | ok rows => by_cases h : rows.isEmpty <;> simp [h]
  | t :: u :: us => rfl

theorem dictGet_bulk_fold (c : List String) (f : String → Except Unit (List Row))
    (acc : List (String × List Row)) (t : String) :
    dictGet (c.foldl (fun results u =>
      match f u with
      | .error _ => results
      | .ok rows => if rows.isEmpty then results else results ++ [(u, rows)]) acc) t
    = (dictGet acc t).or (if t ∈ c then seriesResult f t else none) := by
  induction c generalizing acc with
  | nil => simp
  | cons u us ih =>
    simp only [List.foldl_cons]
    rw [ih]
    rcases hfu : f u with e | rows
    · simp only [hfu]
      by_cases ht : t = u
      · subst ht
        simp [seriesResult, hfu]
      · simp [List.mem_cons, ht]
    · simp only [hfu]
      by_cases he : rows.isEmpty
      · rw [if_pos he]
        by_cases ht : t = u
        · subst ht
          simp [seriesResult, hfu, he]
        · simp [he, List.mem_cons, ht]
      · rw [if_neg he]
        rw [dictGet_append, Option.or_assoc]
        congr 1
        by_cases ht : t = u
        · subst ht
          simp [dictGet, seriesResult, hfu, he]
        · have hut : ¬(u = t) := fun h => ht h.symm
          simp [dictGet, hut, List.mem_cons, ht]

theorem dictGet_bulk_download (c : List String) (f : String → Except Unit (List Row))
    (t : String) :
    dictGet (bulk_download c f) t = if t ∈ c then seriesResult f t else none := by
  rw [bulk_download_eq_fold, dictGet_bulk_fold]
  simp [dictGet]

theorem mem_of_dictGet {α : Type} {m : List (String × α)} {t : String} {v : α}
    (h : dictGet m t = some v) : (t, v) ∈ m := by
  induction m with
  | nil => simp [dictGet] at h
  | cons p rest ih =>
    obtain ⟨k, w⟩ := p
    simp only [dictGet] at h
    by_cases hp : k = t
    · rw [if_pos hp] at h
      subst hp
      obtain rfl : w = v := Option.some.inj h
      exact List.mem_cons_self _ _
    · rw [if_neg hp] at h
      exact List.mem_cons_of_mem _ (ih h)

theorem dictGet_dictUpdate_of_fun {α : Type} (W : String → Option α)
    (C : List (String × α)) (hfun : ∀ p ∈ C, W p.1 = some p.2)
    (A : List (String × α)) (t : String) :
    dictGet (dictUpdate A C) t =
      if (dictGet C t).isSome then dictGet C t else dictGet A t := by
  induction C generalizing A with
  | nil => simp [dictUpdate, dictGet]
  | cons p C' ih =>
    have hfun' : ∀ q ∈ C', W q.1 = some q.2 := fun q hq => hfun q (List.mem_cons_of_mem _ hq)
    have step : dictUpdate A (p :: C') = dictUpdate (dictSet A p.1 p.2) C' := rfl
    rw [step, ih hfun']
    rcases hC' : dictGet C' t with _ | v
    · simp only [hC', Option.isSome_none, Bool.false_eq_true, if_false]
      by_cases hp : p.1 = t
      · subst hp
        simp [dictGet, hC', dictGet_dictSet_self]
      · rw [dictGet_dictSet_ne _ _ _ _ (fun h => hp h.symm)]
        simp [dictGet, hp, hC']
    · have hv : W t = some v := by
        have := hfun' _ (mem_of_dictGet hC')
        simpa using this
      simp only [hC', Option.isSome_some, if_true]
      by_cases hp : p.1 = t
      · have hpv : W t = some p.2 := by
          have := hfun p (List.mem_cons_self _ _)
          rwa [hp] at this
        have : p.2 = v := by
          rw [hpv] at hv
          exact Option.some.inj hv
        simp [dictGet, hp, this]
      · simp [dictGet, hp, hC']

theorem bulk_fold_fun (f : String → Except Unit (List Row)) (c : List String) :
    ∀ (acc : List (String × List Row)),
      (∀ q ∈ acc, seriesResult f q.1 = some q.2) →
      ∀ q ∈ c.foldl (fun results u =>
        match f u with
        | .error _ => results
        | .ok rows => if rows.isEmpty then results else results ++ [(u, rows)]) acc,
      seriesResult f q.1 = some q.2 := by
  induction c with
  | nil => intro acc hacc q hq; exact hacc q hq
  | cons u us ih =>
    intro acc hacc q hq
    simp only [List.foldl_cons] at hq
    refine ih _ ?_ q hq
    rcases hfu : f u with e | rows
    · simpa [hfu] using hacc
    · by_cases he : rows.isEmpty
      · simp only [hfu] at hq ⊢
        rw [if_pos he] at hq ⊢
        exact hacc
      · simp only [hfu] at hq ⊢
        rw [if_neg he] at hq ⊢
        intro q' hq'
        rcases List.mem_append.mp hq' with h' | h'
        · exact hacc q' h'
        · simp only [List.mem_singleton] at h'
          subst h'
          simp [seriesResult, hfu, he]

theorem bulk_download_fun (c : List String) (f : String → Except Unit (List Row)) :
    ∀ p ∈ bulk_download c f, seriesResult f p.1 = some p.2 := by
  intro p hp
  rw [bulk_download_eq_fold] at hp
  exact bulk_fold_fun f c [] (by simp) p hp

/-- Lookup in the merged `all_ohlcv` mapping accumulated over the chunks of
`to_update`. -/
theorem dictGet_merged (f : String → Except Unit (List Row))
    (cs : List (List String)) (A : List (String × List Row)) (done : List String)
    (hA : ∀ t, dictGet A t = if t ∈ done then seriesResult f t else none) (t : String) :
    dictGet (cs.foldl (fun acc c => dictUpdate acc (bulk_download c f)) A) t
      = if t ∈ done ∨ t ∈ cs.flatten then seriesResult f t else none := by
  induction cs generalizing A done with
  | nil => simp [hA t]
  | cons c cs' ih =>
    simp only [List.foldl_cons]
    have hA' : ∀ u, dictGet (dictUpdate A (bulk_download c f)) u =
        if u ∈ done ++ c then seriesResult f u else none := by
      intro u
      rw [dictGet_dictUpdate_of_fun (seriesResult f) _ (bulk_download_fun c f)]
      rw [dictGet_bulk_download, hA u]
      by_cases hc : u ∈ c
      · rcases hr : seriesResult f u with _ | rows
        · simp [hc, hr, List.mem_append]
        · simp [hc, hr, List.mem_append]
      · simp [hc, List.mem_append]
    rw [ih _ _ hA']
    simp [List.mem_append, or_assoc]

/-- Lookup in `all_ohlcv` as built by `process_interval`. -/
theorem dictGet_all_ohlcv (f : String → Except Unit (List Row)) (to_update : List String)
    (t : String) :
    dictGet ((chunked to_update).foldl
        (fun acc c => dictUpdate acc (bulk_download c f)) []) t
      = if t ∈ to_update then seriesResult f t else none := by
  rw [dictGet_merged f _ [] [] (by intro u; simp [dictGet])]
  simp [chunked_flatten]

/-! ### The per-ticker fold of one interval pass -/

section ProcessFold

variable (label suffix today : String) (oracle : Oracle)
variable (all_ohlcv : List (String × List Row))

/-- The state component of one `process_ticker` step (derived view used in
proofs). -/
def ptState (st : MState) (t : String) : MState :=
  match dictGet all_ohlcv t with
  | none => st
  | some rows =>
    { date_cache := dictSet st.date_cache (cache_key t label) today
      info_cache := (fetch_info t st.info_cache oracle).2.1
      disk := { st.disk with
                  artifacts := dictSet st.disk.artifacts (artifact_file t suffix)
                    { ticker := t, info := (fetch_info t st.info_cache oracle).1
                      ohlcv := enrich_with_sma rows } } }

/-- The events emitted by one `process_ticker` step. -/
def ptEvs (st : MState) (t : String) : List Ev :=
  match dictGet all_ohlcv t with
  | none => []
  | some _ => (fetch_info t st.info_cache oracle).2.2
                ++ [.writeArtifact t suffix, .ledgerSet t label]

/-- The `updated` contribution of one `process_ticker` step. -/
def ptUpd (t : String) : List String :=
  match dictGet all_ohlcv t with
  | none => []
  | some _ => [t]

/-- The `failed` contribution of one `process_ticker` step. -/
def ptFld (t : String) : List String :=
  match dictGet all_ohlcv t with
  | none => [t]
  | some _ => []

theorem process_ticker_eq (acc : MState × List Ev × List String × List String) (t : String) :
    process_ticker label suffix today oracle all_ohlcv acc t
      = (ptState label suffix today oracle all_ohlcv acc.1 t,
         acc.2.1 ++ ptEvs label suffix oracle all_ohlcv acc.1 t,
         acc.2.2.1 ++ ptUpd all_ohlcv t,
         acc.2.2.2 ++ ptFld all_ohlcv t) := by
  rcases hd : dictGet all_ohlcv t with _ | rows <;>
    simp [process_ticker, ptState, ptEvs, ptUpd, ptFld, hd]

theorem pt_fold_eq (L : List String) (st : MState) (e : List Ev) (u f : List String) :
    L.foldl (process_ticker label suffix today oracle all_ohlcv) (st, e, u, f)
      = ((L.foldl (process_ticker label suffix today oracle all_ohlcv) (st, [], [], [])).1,
         e ++ (L.foldl (process_ticker label suffix today oracle all_ohlcv) (st, [], [], [])).2.1,
         u ++ (L.foldl (process_ticker label suffix today oracle all_ohlcv) (st, [], [], [])).2.2.1,
         f ++ (L.foldl (process_ticker label suffix today oracle all_ohlcv) (st, [], [], [])).2.2.2) := by
  induction L generalizing st e u f with
  | nil => simp
  | cons t L' ih =>
    simp only [List.foldl_cons, process_ticker_eq, List.nil_append]
    rw [ih (ptState label suffix today oracle all_ohlcv st t)
          (e ++ ptEvs label suffix oracle all_ohlcv st t)
          (u ++ ptUpd all_ohlcv t) (f ++ ptFld all_ohlcv t),
        ih (ptState label suffix today oracle all_ohlcv st t)
          (ptEvs label suffix oracle all_ohlcv st t)
          (ptUpd all_ohlcv t) (ptFld all_ohlcv t)]
    simp [List.append_assoc]

theorem pt_fold_upd (L : List String) (st : MState) :
    (L.foldl (process_ticker label suffix today oracle all_ohlcv) (st, [], [], [])).2.2.1
      = L.filter (fun t => (dictGet all_ohlcv t).isSome) := by
  induction L generalizing st with
  | nil => simp
  | cons t L' ih =>
    simp only [List.foldl_cons, process_ticker_eq]
    rw [pt_fold_eq, ih]
    rcases hd : dictGet all_ohlcv t with _ | rows <;>
      simp [ptUpd, hd, List.filter_cons]

theorem pt_fold_fld (L : List String) (st : MState) :
    (L.foldl (process_ticker label suffix today oracle all_ohlcv) (st, [], [], [])).2.2.2
      = L.filter (fun t => !(dictGet all_ohlcv t).isSome) := by
  induction L generalizing st with
  | nil => simp
  | cons t L' ih =>
    simp only [List.foldl_cons, process_ticker_eq]
    rw [pt_fold_eq, ih]
    rcases hd : dictGet all_ohlcv t with _ | rows <;>
      simp [ptFld, hd, List.filter_cons]

theorem pt_fold_state_today (L : List String) (st : MState) (e : List Ev) (u f : List String)
    (k : String) (h : dictGet st.date_cache k = some today) :
    dictGet ((L.foldl (process_ticker label suffix today oracle all_ohlcv)
      (st, e, u, f)).1).date_cache k = some today := by
  induction L generalizing st e u f with
  | nil => exact h
  | cons t L' ih =>
    simp only [List.foldl_cons, process_ticker_eq]
    apply ih
    rcases hd : dictGet all_ohlcv t with _ | rows
    · simpa [ptState, hd] using h
    · simp only [ptState, hd]
      by_cases hk : k = cache_key t label
      · subst hk
        simp [dictGet_dictSet_self]
      · rw [dictGet_dictSet_ne _ _ _ _ hk]
        exact h

theorem pt_fold_state_art (L : List String) (st : MState) (e : List Ev) (u f : List String)
    (fname : String) (h : (dictGet st.disk.artifacts fname).isSome) :
    (dictGet ((L.foldl (process_ticker label suffix today oracle all_ohlcv)
      (st, e, u, f)).1).disk.artifacts fname).isSome := by
  induction L generalizing st e u f with
  | nil => exact h
  | cons t L' ih =>
    simp only [List.foldl_cons, process_ticker_eq]
    apply ih
    rcases hd : dictGet all_ohlcv t with _ | rows
    · simpa [ptState, hd] using h
    · simp only [ptState, hd]
      exact isSome_dictGet_dictSet _ _ _ _ h

theorem pt_fold_establish (L : List String) (st : MState) (e : List Ev) (u f : List String)
    (t : String) (ht : t ∈ L) (hs : (dictGet all_ohlcv t).isSome) :
    dictGet ((L.foldl (process_ticker label suffix today oracle all_ohlcv)
        (st, e, u, f)).1).date_cache (cache_key t label) = some today
    ∧ (dictGet ((L.foldl (process_ticker label suffix today oracle all_ohlcv)
        (st, e, u, f)).1).disk.artifacts (artifact_file t suffix)).isSome := by
  induction L generalizing st e u f with
  | nil => cases ht
  | cons a L' ih =>
    simp only [List.foldl_cons, process_ticker_eq]
    by_cases hat : a = t
    · subst hat
      obtain ⟨rows, hr⟩ := Option.isSome_iff_exists.mp hs
      constructor
      · apply pt_fold_state_today
        simp [ptState, hr, dictGet_dictSet_self]
      · apply pt_fold_state_art
        simp [ptState, hr, dictGet_dictSet_self]
    · rcases List.mem_cons.mp ht with h' | h'
      · exact absurd h'.symm hat
      · exact ih _ _ _ _ h'

theorem pt_fold_frame_ledger (L : List String) (st : MState) (e : List Ev) (u f : List String)
    (k : String)
    (h : ∀ t ∈ L, (dictGet all_ohlcv t).isSome → k ≠ cache_key t label) :
    dictGet ((L.foldl (process_ticker label suffix today oracle all_ohlcv)
      (st, e, u, f)).1).date_cache k = dictGet st.date_cache k := by
  induction L generalizing st e u f with
  | nil => rfl
  | cons a L' ih =>
    simp only [List.foldl_cons, process_ticker_eq]
    rw [ih _ _ _ _ (fun t htL hsome => h t (List.mem_cons_of_mem _ htL) hsome)]
    rcases hd : dictGet all_ohlcv a with _ | rows
    · simp [ptState, hd]
    · simp only [ptState, hd]
      exact dictGet_dictSet_ne _ _ _ _ (h a (List.mem_cons_self _ _) (by simp [hd]))

theorem pt_fold_frame_art (L : List String) (st : MState) (e : List Ev) (u f : List String)
    (fname : String)
    (h : ∀ t ∈ L, (dictGet all_ohlcv t).isSome → fname ≠ artifact_file t suffix) :
    dictGet ((L.foldl (process_ticker label suffix today oracle all_ohlcv)
      (st, e, u, f)).1).disk.artifacts fname = dictGet st.disk.artifacts fname := by
  induction L generalizing st e u f with
  | nil => rfl
  | cons a L' ih =>
    simp only [List.foldl_cons, process_ticker_eq]
    rw [ih _ _ _ _ (fun t htL hsome => h t (List.mem_cons_of_mem _ htL) hsome)]
    rcases hd : dictGet all_ohlcv a with _ | rows
    · simp [ptState, hd]
    · simp only [ptState, hd]
      exact dictGet_dictSet_ne _ _ _ _ (h a (List.mem_cons_self _ _) (by simp [hd]))

theorem pt_fold_cacheFile (L : List String) (st : MState) (e : List Ev) (u f : List String) :
    ((L.foldl (process_ticker label suffix today oracle all_ohlcv)
      (st, e, u, f)).1).disk.cacheFile = st.disk.cacheFile := by
  induction L generalizing st e u f with
  | nil => rfl
  | cons a L' ih =>
    simp only [List.foldl_cons, process_ticker_eq]
    rw [ih]
    rcases hd : dictGet all_ohlcv a with _ | rows <;> simp [ptState, hd]

theorem fetch_info_evs (t : String) (ic : List (String × Info)) (oracle : Oracle) :
    (fetch_info t ic oracle).2.2 = [] ∨ (fetch_info t ic oracle).2.2 = [Ev.infoFetch t] := by
  rcases h : dictGet ic t with _ | i <;> simp [fetch_info, h]

theorem pt_fold_evs_shape (L : List String) (st : MState) :
    ∀ e ∈ (L.foldl (process_ticker label suffix today oracle all_ohlcv)
      (st, [], [], [])).2.1,
      (∃ t, e = .infoFetch t) ∨ (∃ t, e = .writeArtifact t suffix)
        ∨ (∃ t, e = .ledgerSet t label) := by
  induction L generalizing st with
  | nil => simp
  | cons t L' ih =>
    simp only [List.foldl_cons, process_ticker_eq, List.nil_append]
    rw [pt_fold_eq]
    intro e he
    rcases List.mem_append.mp he with h' | h'
    · rcases hd : dictGet all_ohlcv t with _ | rows
      · simp [ptEvs, hd] at h'
      · simp only [ptEvs, hd] at h'
        rcases fetch_info_evs t st.info_cache oracle with hfe | hfe
        · rw [hfe] at h'
          simp at h'
          rcases h' with h'' | h''
          · exact Or.inr (Or.inl ⟨t, h''⟩)
          · exact Or.inr (Or.inr ⟨t, h''⟩)
        · rw [hfe] at h'
          simp at h'
          rcases h' with h'' | h'' | h''
          · exact Or.inl ⟨t, h''⟩
          · exact Or.inr (Or.inl ⟨t, h''⟩)
          · exact Or.inr (Or.inr ⟨t, h''⟩)
    · exact ih _ e h'

theorem pt_fold_evs_wa (L : List String) (st : MState) (t0 s0 : String) :
    (Ev.writeArtifact t0 s0) ∈ (L.foldl (process_ticker label suffix today oracle all_ohlcv)
      (st, [], [], [])).2.1
    ↔ s0 = suffix ∧ t0 ∈ (L.foldl (process_ticker label suffix today oracle all_ohlcv)
      (st, [], [], [])).2.2.1 := by
  induction L generalizing st with
  | nil => simp
  | cons t L' ih =>
    simp only [List.foldl_cons, process_ticker_eq, List.nil_append]
    rw [pt_fold_eq]
    simp only [List.mem_append]
    constructor
    · rintro (h' | h')
      · rcases hd : dictGet all_ohlcv t with _ | rows
        · simp [ptEvs, hd] at h'
        · simp only [ptEvs, hd] at h'
          rcases fetch_info_evs t st.info_cache oracle with hfe | hfe <;> rw [hfe] at h' <;>
            simp at h'
          all_goals
            obtain ⟨rfl, rfl⟩ := h'
            exact ⟨rfl, Or.inl (by simp [ptUpd, hd])⟩
      · obtain ⟨h1, h2⟩ := (ih _).mp h'
        exact ⟨h1, Or.inr h2⟩
    · rintro ⟨rfl, h' | h'⟩
      · rcases hd : dictGet all_ohlcv t with _ | rows
        · simp [ptUpd, hd] at h'
        · simp only [ptUpd, hd, List.mem_singleton] at h'
          subst h'
          refine Or.inl ?_
          rcases fetch_info_evs t0 st.info_cache oracle with hfe | hfe <;>
            simp [ptEvs, hd, hfe]
      · exact Or.inr ((ih _).mpr ⟨rfl, h'⟩)

theorem pt_fold_evs_ls (L : List String) (st : MState) (t0 l0 : String) :
    (Ev.ledgerSet t0 l0) ∈ (L.foldl (process_ticker label suffix today oracle all_ohlcv)
      (st, [], [], [])).2.1
    ↔ l0 = label ∧ t0 ∈ (L.foldl (process_ticker label suffix today oracle all_ohlcv)
      (st, [], [], [])).2.2.1 := by
  induction L generalizing st with
  | nil => simp
  | cons t L' ih =>
    simp only [List.foldl_cons, process_ticker_eq, List.nil_append]
    rw [pt_fold_eq]
    simp only [List.mem_append]
    constructor
    · rintro (h' | h')
      · rcases hd : dictGet all_ohlcv t with _ | rows
        · simp [ptEvs, hd] at h'
        · simp only [ptEvs, hd] at h'
          rcases fetch_info_evs t st.info_cache oracle with hfe | hfe <;> rw [hfe] at h' <;>
            simp at h'
          all_goals
            obtain ⟨rfl, rfl⟩ := h'
            exact ⟨rfl, Or.inl (by simp [ptUpd, hd])⟩
      · obtain ⟨h1, h2⟩ := (ih _).mp h'
        exact ⟨h1, Or.inr h2⟩
    · rintro ⟨rfl, h' | h'⟩
      · rcases hd : dictGet all_ohlcv t with _ | rows
        · simp [ptUpd, hd] at h'
        · simp only [ptUpd, hd, List.mem_singleton] at h'
          subst h'
          refine Or.inl ?_
          rcases fetch_info_evs t0 st.info_cache oracle with hfe | hfe <;>
            simp [ptEvs, hd, hfe]
      · exact Or.inr ((ih _).mpr ⟨rfl, h'⟩)

end ProcessFold

/-! ### Ledger assignments always immediately follow the artifact write -/

/-- In a trace, every `ledgerSet` event carries this interval's label and is
immediately preceded by the `writeArtifact` event of the same ticker. -/
def lsAdjacent (suffix label : String) (tr : List Ev) : Prop :=
  ∀ n t l, tr[n]? = some (.ledgerSet t l) →
    l = label ∧ ∃ m, m + 1 = n ∧ tr[m]? = some (.writeArtifact t suffix)

theorem lsAdjacent_nil (suffix label : String) : lsAdjacent suffix label [] := by
  intro n t l h
  simp at h

theorem lsAdjacent_of_no_ls {suffix label : String} {tr : List Ev}
    (h : ∀ t l, Ev.ledgerSet t l ∉ tr) : lsAdjacent suffix label tr := by
  intro n t l hn
  exact absurd (List.getElem?_mem hn) (h t l)

theorem lsAdjacent_append {suffix label : String} {A B : List Ev}
    (hA : lsAdjacent suffix label A) (hB : lsAdjacent suffix label B)
    (hhd : ∀ t l, B[0]? ≠ some (Ev.ledgerSet t l)) :
    lsAdjacent suffix label (A ++ B) := by
  intro n t l h
  by_cases hn : n < A.length
  · rw [List.getElem?_append_left hn] at h
    obtain ⟨hl, m, hm, hm2⟩ := hA n t l h
    exact ⟨hl, m, hm, by rw [List.getElem?_append_left (by omega)]; exact hm2⟩
  · push_neg at hn
    rw [List.getElem?_append_right hn] at h
    rcases Nat.eq_or_lt_of_le hn with heq | hlt
    · rw [show n - A.length = 0 by omega] at h
      exact absurd h (hhd t l)
    · obtain ⟨hl, m, hm, hm2⟩ := hB (n - A.length) t l h
      refine ⟨hl, A.length + m, by omega, ?_⟩
      rw [List.getElem?_append_right (by omega), show A.length + m - A.length = m by omega]
      exact hm2

theorem lsAdjacent_block (suffix label t : String) (pre : List Ev)
    (hpre : pre = [] ∨ pre = [Ev.infoFetch t]) :
    lsAdjacent suffix label (pre ++ [Ev.writeArtifact t suffix, Ev.ledgerSet t label]) := by
  rcases hpre with h | h <;> subst h <;> intro n t' l' hn
  · rcases n with _ | _ | k
    · simp at hn
    · simp only [List.nil_append, List.getElem?_cons_succ, List.getElem?_cons_zero,
        Option.some.injEq] at hn
      obtain ⟨rfl, rfl⟩ : t = t' ∧ label = l' := by
        injection hn with h1 h2; exact ⟨h1, h2⟩
      exact ⟨rfl, 0, rfl, rfl⟩
    · simp at hn
  · rcases n with _ | _ | _ | k
    · simp at hn
    · simp at hn
    · simp only [List.cons_append, List.nil_append, List.getElem?_cons_succ,
        List.getElem?_cons_zero, Option.some.injEq] at hn
      obtain ⟨rfl, rfl⟩ : t = t' ∧ label = l' := by
        injection hn with h1 h2; exact ⟨h1, h2⟩
      exact ⟨rfl, 1, rfl, rfl⟩
    · simp at hn

section ProcessFoldAdj

variable (label suffix today : String) (oracle : Oracle)
variable (all_ohlcv : List (String × List Row))

theorem pt_fold_evs_head (L : List String) (st : MState) :
    ∀ t l, ((L.foldl (process_ticker label suffix today oracle all_ohlcv)
      (st, [], [], [])).2.1)[0]? ≠ some (Ev.ledgerSet t l) := by
  induction L generalizing st with
  | nil => simp
  | cons t L' ih =>
    simp only [List.foldl_cons, process_ticker_eq, List.nil_append]
    rw [pt_fold_eq]
    intro t' l'
    rcases hd : dictGet all_ohlcv t with _ | rows
    · simpa [ptEvs, hd] using ih _ t' l'
    · rcases fetch_info_evs t st.info_cache oracle with hfe | hfe <;>
        simp [ptEvs, hd, hfe]

theorem pt_fold_adj (L : List String) (st : MState) :
    lsAdjacent suffix label ((L.foldl (process_ticker label suffix today oracle all_ohlcv)
      (st, [], [], [])).2.1) := by
  induction L generalizing st with
  | nil => exact lsAdjacent_nil _ _
  | cons t L' ih =>
    simp only [List.foldl_cons, process_ticker_eq, List.nil_append]
    rw [pt_fold_eq]
    rcases hd : dictGet all_ohlcv t with _ | rows
    · simpa [ptEvs, hd] using ih (ptState label suffix today oracle all_ohlcv st t)
    · simp only [ptEvs, hd]
      refine lsAdjacent_append ?_ (ih _) (pt_fold_evs_head _ _ _ _ _ _ _)
      exact lsAdjacent_block suffix label t _ (fetch_info_evs t st.info_cache oracle)

end ProcessFoldAdj

/-! ### Interval-pass lemmas -/

/-- Boolean reading of `needs_update = false`. -/
theorem needs_update_false_iff (t l : String) (dc : List (String × String)) (today : String)
    (arts : List (String × Artifact)) :
    needs_update t l dc today arts = false ↔
      dictGet dc (cache_key t l) = some today
        ∧ (dictGet arts (artifact_file t l)).isSome := by
  simp [needs_update]

/-- Boolean reading of `needs_update = true`. -/
theorem needs_update_true_iff (t l : String) (dc : List (String × String)) (today : String)
    (arts : List (String × Artifact)) :
    needs_update t l dc today arts = true ↔
      dictGet dc (cache_key t l) ≠ some today
        ∨ ¬(dictGet arts (artifact_file t l)).isSome := by
  simp [needs_update, or_comm]

/-- The stale set of one interval pass (derived view). -/
def intervalToUpdate (label : String) (pool : List String) (today : String) (st : MState) :
    List String :=
  pool.filter (fun t => needs_update t label st.date_cache today st.disk.artifacts)

/-- The merged bulk-download mapping of one interval pass (derived view). -/
def intervalOhlcv (label : String) (pool : List String) (today : String) (oracle : Oracle)
    (st : MState) : List (String × List Row) :=
  (chunked (intervalToUpdate label pool today st)).foldl
    (fun acc c => dictUpdate acc (bulk_download c oracle.series)) []

theorem process_interval_eq (label suffix : String) (pool : List String) (today : String)
    (oracle : Oracle) (st : MState) :
    process_interval label suffix pool today oracle st =
      if (intervalToUpdate label pool today st).isEmpty then (st, [], [], [])
      else
        let r := (intervalToUpdate label pool today st).foldl
          (process_ticker label suffix today oracle
            (intervalOhlcv label pool today oracle st)) (st, [], [], [])
        let d : Disk :=
          { r.1.disk with cacheFile := r.1.date_cache, infoFile := r.1.info_cache }
        ({ r.1 with disk := d },
         (chunked (intervalToUpdate label pool today st)).map (fun c => Ev.fetch label c)
           ++ r.2.1 ++ [.flushLedger label, .flushInfo label],
         r.2.2.1, r.2.2.2) := rfl

theorem process_interval_state_today (label suffix : String) (pool : List String)
    (today : String) (oracle : Oracle) (st : MState) (k : String)
    (h : dictGet st.date_cache k = some today) :
    dictGet ((process_interval label suffix pool today oracle st).1).date_cache k
      = some today := by
  rw [process_interval_eq]
  by_cases he : (intervalToUpdate label pool today st).isEmpty
  · simpa [he] using h
  · simp only [he, if_false]
    exact pt_fold_state_today _ _ _ _ _ _ _ _ _ _ _ h

theorem process_interval_state_art (label suffix : String) (pool : List String)
    (today : String) (oracle : Oracle) (st : MState) (fname : String)
    (h : (dictGet st.disk.artifacts fname).isSome) :
    (dictGet ((process_interval label suffix pool today oracle st).1).disk.artifacts
      fname).isSome := by
  rw [process_interval_eq]
  by_cases he : (intervalToUpdate label pool today st).isEmpty
  · simpa [he] using h
  · simp only [he, if_false]
    exact pt_fold_state_art _ _ _ _ _ _ _ _ _ _ _ h

theorem process_interval_establish (label : String) (pool : List String)
    (today : String) (oracle : Oracle) (st : MState) (t : String) (ht : t ∈ pool)
    (hok : (seriesResult oracle.series t).isSome) :
    dictGet ((process_interval label label pool today oracle st).1).date_cache
        (cache_key t label) = some today
    ∧ (dictGet ((process_interval label label pool today oracle st).1).disk.artifacts
        (artifact_file t label)).isSome := by
  by_cases hnu : needs_update t label st.date_cache today st.disk.artifacts = false
  · obtain ⟨h1, h2⟩ := (needs_update_false_iff _ _ _ _ _).mp hnu
    exact ⟨process_interval_state_today _ _ _ _ _ _ _ h1,
           process_interval_state_art _ _ _ _ _ _ _ h2⟩
  · have htu : t ∈ intervalToUpdate label pool today st := by
      rw [intervalToUpdate, List.mem_filter]
      refine ⟨ht, ?_⟩
      cases hnn : needs_update t label st.date_cache today st.disk.artifacts
      · exact absurd hnn hnu
      · rfl
    have hne : (intervalToUpdate label pool today st).isEmpty = false := by
      rcases hl : intervalToUpdate label pool today st with _ | ⟨a, l⟩
      · rw [hl] at htu; cases htu
      · rfl
    rw [process_interval_eq]
    simp only [hne, Bool.false_eq_true, if_false]
    have hs : (dictGet (intervalOhlcv label pool today oracle st) t).isSome := by
      rw [intervalOhlcv, dictGet_all_ohlcv, if_pos htu]
      exact hok
    exact pt_fold_establish _ _ _ _ _ _ _ _ _ _ _ htu hs

theorem process_interval_frame_ledger (label suffix : String) (pool : List String)
    (today : String) (oracle : Oracle) (st : MState) (k : String)
    (h : ∀ u, (seriesResult oracle.series u).isSome → k ≠ cache_key u label) :
    dictGet ((process_interval label suffix pool today oracle st).1).date_cache k
      = dictGet st.date_cache k := by
  rw [process_interval_eq]
  by_cases he : (intervalToUpdate label pool today st).isEmpty
  · simp [he]
  · simp only [he, if_false]
    apply pt_fold_frame_ledger
    intro t htL hsome
    apply h
    rw [intervalOhlcv, dictGet_all_ohlcv] at hsome
    rwa [if_pos htL] at hsome

theorem process_interval_frame_art (label suffix : String) (pool : List String)
    (today : String) (oracle : Oracle) (st : MState) (fname : String)
    (h : ∀ u, (seriesResult oracle.series u).isSome → fname ≠ artifact_file u suffix) :
    dictGet ((process_interval label suffix pool today oracle st).1).disk.artifacts fname
      = dictGet st.disk.artifacts fname := by
  rw [process_interval_eq]
  by_cases he : (intervalToUpdate label pool today st).isEmpty
  · simp [he]
  · simp only [he, if_false]
    apply pt_fold_frame_art
    intro t htL hsome
    apply h
    rw [intervalOhlcv, dictGet_all_ohlcv] at hsome
    rwa [if_pos htL] at hsome

theorem process_interval_cacheFile (label suffix : String) (pool : List String)
    (today : String) (oracle : Oracle) (st : MState)
    (h : st.disk.cacheFile = st.date_cache) :
    ((process_interval label suffix pool today oracle st).1).disk.cacheFile
      = ((process_interval label suffix pool today oracle st).1).date_cache := by
  rw [process_interval_eq]
  by_cases he : (intervalToUpdate label pool today st).isEmpty
  · simpa [he] using h
  · simp [he]

theorem process_interval_skip (label suffix : String) (pool : List String)
    (today : String) (oracle : Oracle) (st : MState)
    (h : ∀ t ∈ pool, needs_update t label st.date_cache today st.disk.artifacts = false) :
    process_interval label suffix pool today oracle st = (st, [], [], []) := by
  have hempty : intervalToUpdate label pool today st = [] := by
    rw [intervalToUpdate]
    rw [List.filter_eq_nil_iff]
    intro a ha
    simp [h a ha]
  rw [process_interval_eq, hempty]
  rfl

theorem process_interval_upd (label suffix : String) (pool : List String)
    (today : String) (oracle : Oracle) (st : MState) :
    (process_interval label suffix pool today oracle st).2.2.1
      = (intervalToUpdate label pool today st).filter
          (fun t => (seriesResult oracle.series t).isSome) := by
  rw [process_interval_eq]
  by_cases he : (intervalToUpdate label pool today st).isEmpty
  · rw [List.isEmpty_iff] at he
    simp [he]
  · simp only [he, if_false]
    rw [pt_fold_upd]
    apply List.filter_congr
    intro t ht
    rw [intervalOhlcv, dictGet_all_ohlcv, if_pos ht]

/-! ### Stage views of `main` -/

/-- The grids with their loaded symbol lists (derived view of `main`). -/
def gridTickers (inp : RunInput) : List (String × List String) :=
  inp.gridFiles.map (fun g => (g.1, load_tickers_from_file g.2))

/-- The deduplicated, sorted ticker pool of one run. -/
def tickerPool (inp : RunInput) : List String :=
  pySorted ((gridTickers inp).map (fun g => g.2)).flatten.dedup

/-- The in-memory state right after the caches are loaded. -/
def stage0 (inp : RunInput) (disk0 : Disk) : MState :=
  { date_cache := disk0.cacheFile, info_cache := disk0.infoFile, disk := disk0 }

/-- The daily interval pass. -/
def stageDaily (inp : RunInput) (disk0 : Disk) :
    MState × List Ev × List String × List String :=
  process_interval "daily" "daily" (tickerPool inp) inp.today inp.oracle (stage0 inp disk0)

/-- The weekly interval pass. -/
def stageWeekly (inp : RunInput) (disk0 : Disk) :
    MState × List Ev × List String × List String :=
  process_interval "weekly" "weekly" (tickerPool inp) inp.today inp.oracle
    (stageDaily inp disk0).1

/-- The manifest store after the manifest loop. -/
def manifestList (inp : RunInput) (disk0 : Disk) : List (String × Manifest) :=
  (gridTickers inp).foldl
    (fun m g =>
      dictSet m g.1
        { grid := g.1
          tickers := g.2.filter (fun t =>
            (dictGet (stageWeekly inp disk0).1.disk.artifacts
              (artifact_file t "daily")).isSome)
          generated := inp.now })
    (stageWeekly inp disk0).1.disk.manifests

theorem process_interval_fld (label suffix : String) (pool : List String)
    (today : String) (oracle : Oracle) (st : MState) :
    (process_interval label suffix pool today oracle st).2.2.2
      = (intervalToUpdate label pool today st).filter
          (fun t => !(seriesResult oracle.series t).isSome) := by
  rw [process_interval_eq]
  by_cases he : (intervalToUpdate label pool today st).isEmpty
  · rw [List.isEmpty_iff] at he
    simp [he]
  · simp only [he, if_false]
    rw [pt_fold_fld]
    apply List.filter_congr
    intro t ht
    rw [intervalOhlcv, dictGet_all_ohlcv, if_pos ht]

/-- `main` on a non-empty grid set, expressed through the stage views. -/
theorem main_eq (inp : RunInput) (disk0 : Disk) (h : inp.gridFiles.isEmpty = false) :
    main inp disk0 =
      { exit := none
        disk := { (stageWeekly inp disk0).1.disk with
                    manifests := manifestList inp disk0
                    gridsIndex := some { grids := inp.gridFiles.map (fun g => g.1)
                                         generated := inp.now } }
        trace := (stageDaily inp disk0).2.1 ++ (stageWeekly inp disk0).2.1
                   ++ (gridTickers inp).map (fun g => Ev.writeManifest g.1) ++ [.writeIndex]
        results := [("daily", (stageDaily inp disk0).2.2.1, (stageDaily inp disk0).2.2.2),
                    ("weekly", (stageWeekly inp disk0).2.2.1,
                     (stageWeekly inp disk0).2.2.2)] } := by
  simp only [main, h, Bool.false_eq_true, if_false, INTERVALS, List.foldl_cons,
    List.foldl_nil, List.nil_append, stageDaily, stageWeekly, stage0, gridTickers,
    tickerPool, manifestList]
  rfl

/-! ### Manifest lookup -/

theorem dictGet_setFold_frame {β : Type} (F : String × β → Manifest)
    (gs : List (String × β)) (base : List (String × Manifest)) (k : String)
    (h : k ∉ gs.map Prod.fst) :
    dictGet (gs.foldl (fun m x => dictSet m x.1 (F x)) base) k = dictGet base k := by
  induction gs generalizing base with
  | nil => rfl
  | cons a gs' ih =>
    simp only [List.map_cons, List.mem_cons] at h
    push_neg at h
    simp only [List.foldl_cons]
    rw [ih _ h.2, dictGet_dictSet_ne _ _ _ _ h.1]

theorem dictGet_setFold_lookup {β : Type} (F : String × β → Manifest) :
    ∀ (gs : List (String × β)) (base : List (String × Manifest)),
      (gs.map Prod.fst).Nodup → ∀ g ∈ gs,
      dictGet (gs.foldl (fun m x => dictSet m x.1 (F x)) base) g.1 = some (F g) := by
  intro gs
  induction gs with
  | nil =>
    intro base _ g hg
    cases hg
  | cons a gs' ih =>
    intro base hnd g hg
    simp only [List.map_cons, List.nodup_cons] at hnd
    rcases List.mem_cons.mp hg with rfl | hg'
    · simp only [List.foldl_cons]
      rw [dictGet_setFold_frame _ _ _ _ hnd.1, dictGet_dictSet_self]
    · simp only [List.foldl_cons]
      exact ih _ hnd.2 g hg'

/-- A manifest lookup after a full run: the grid's manifest lists exactly the
grid's symbols whose daily artifact exists in the final store, in declared
order, with the run's shared timestamp. -/
theorem main_manifest_lookup (inp : RunInput) (disk0 : Disk)
    (hnd : (inp.gridFiles.map Prod.fst).Nodup) (name : String) (lines : List String)
    (hg : (name, lines) ∈ inp.gridFiles) :
    dictGet (main inp disk0).disk.manifests name = some
      { grid := name
        tickers := (load_tickers_from_file lines).filter (fun t =>
          (dictGet (main inp disk0).disk.artifacts (artifact_file t "daily")).isSome)
        generated := inp.now } := by
  have h' : inp.gridFiles.isEmpty = false := by
    rcases hl : inp.gridFiles with _ | _
    · rw [hl] at hg; cases hg
    · rfl
  rw [main_eq inp disk0 h']
  show dictGet (manifestList inp disk0) name = _
  have hnd' : ((gridTickers inp).map Prod.fst).Nodup := by
    rw [gridTickers, List.map_map]
    exact hnd
  have hg' : (name, load_tickers_from_file lines) ∈ gridTickers inp :=
    List.mem_map.mpr ⟨(name, lines), hg, rfl⟩
  have := dictGet_setFold_lookup
    (fun g => { grid := g.1
                tickers := g.2.filter (fun t =>
                  (dictGet (stageWeekly inp disk0).1.disk.artifacts
                    (artifact_file t "daily")).isSome)
                generated := inp.now })
    (gridTickers inp) (stageWeekly inp disk0).1.disk.manifests hnd'
    (name, load_tickers_from_file lines) hg'
  rw [manifestList]
  rw [this]

/-! ### Event membership in one interval pass -/

theorem pt_fold_no_fetch (label suffix today : String) (oracle : Oracle)
    (all_ohlcv : List (String × List Row)) (L : List String) (st : MState)
    (lab : String) (c : List String) :
    Ev.fetch lab c ∉ (L.foldl (process_ticker label suffix today oracle all_ohlcv)
      (st, [], [], [])).2.1 := by
  intro hmem
  rcases pt_fold_evs_shape label suffix today oracle all_ohlcv L st _ hmem with
    ⟨t, h⟩ | ⟨t, h⟩ | ⟨t, h⟩ <;> cases h

theorem pt_fold_no_flushLedger (label suffix today : String) (oracle : Oracle)
    (all_ohlcv : List (String × List Row)) (L : List String) (st : MState)
    (lab : String) :
    Ev.flushLedger lab ∉ (L.foldl (process_ticker label suffix today oracle all_ohlcv)
      (st, [], [], [])).2.1 := by
  intro hmem
  rcases pt_fold_evs_shape label suffix today oracle all_ohlcv L st _ hmem with
    ⟨t, h⟩ | ⟨t, h⟩ | ⟨t, h⟩ <;> cases h

theorem process_interval_wa_mem (label suffix : String) (pool : List String)
    (today : String) (oracle : Oracle) (st : MState) (t0 s0 : String) :
    Ev.writeArtifact t0 s0 ∈ (process_interval label suffix pool today oracle st).2.1
      ↔ s0 = suffix ∧ t0 ∈ (process_interval label suffix pool today oracle st).2.2.1 := by
  rw [process_interval_eq]
  by_cases he : (intervalToUpdate label pool today st).isEmpty
  · simp [he]
  · simp only [he, Bool.false_eq_true, if_false]
    simp only [List.mem_append, List.mem_map, List.mem_cons, List.mem_singleton]
    constructor
    · rintro ((⟨c, _, hc⟩ | h) | (h | h | h))
      · cases hc
      · exact (pt_fold_evs_wa _ _ _ _ _ _ _ _ _).mp h
      · cases h
      · cases h
      · cases h
    · intro h
      exact Or.inl (Or.inr ((pt_fold_evs_wa _ _ _ _ _ _ _ _ _).mpr h))

theorem process_interval_ls_mem (label suffix : String) (pool : List String)
    (today : String) (oracle : Oracle) (st : MState) (t0 l0 : String) :
    Ev.ledgerSet t0 l0 ∈ (process_interval label suffix pool today oracle st).2.1
      ↔ l0 = label ∧ t0 ∈ (process_interval label suffix pool today oracle st).2.2.1 := by
  rw [process_interval_eq]
  by_cases he : (intervalToUpdate label pool today st).isEmpty
  · simp [he]
  · simp only [he, Bool.false_eq_true, if_false]
    simp only [List.mem_append, List.mem_map, List.mem_cons, List.mem_singleton]
    constructor
    · rintro ((⟨c, _, hc⟩ | h) | (h | h | h))
      · cases hc
      · exact (pt_fold_evs_ls _ _ _ _ _ _ _ _ _).mp h
      · cases h
      · cases h
      · cases h
    · intro h
      exact Or.inl (Or.inr ((pt_fold_evs_ls _ _ _ _ _ _ _ _ _).mpr h))

theorem process_interval_fetch_mem (label suffix : String) (pool : List String)
    (today : String) (oracle : Oracle) (st : MState) (lab : String) (c : List String) :
    Ev.fetch lab c ∈ (process_interval label suffix pool today oracle st).2.1
      ↔ lab = label ∧ c ∈ chunked (intervalToUpdate label pool today st) := by
  rw [process_interval_eq]
  by_cases he : (intervalToUpdate label pool today st).isEmpty
  · rw [List.isEmpty_iff] at he
    simp [he, chunked, chunkedAux]
  · simp only [he, Bool.false_eq_true, if_false]
    simp only [List.mem_append, List.mem_map, List.mem_cons, List.mem_singleton]
    constructor
    · rintro ((⟨ch, hch, hc⟩ | h) | (h | h | h))
      · obtain ⟨rfl, rfl⟩ : lab = label ∧ c = ch := by
          injection hc.symm with h1 h2; exact ⟨h1, h2⟩
        exact ⟨rfl, hch⟩
      · exact absurd h (pt_fold_no_fetch _ _ _ _ _ _ _ _ _)
      · cases h
      · cases h
      · cases h
    · rintro ⟨rfl, hc⟩
      exact Or.inl (Or.inl ⟨c, hc, rfl⟩)

/-! ### Failure classification -/

theorem seriesResult_none_iff (f : String → Except Unit (List Row)) (t : String) :
    seriesResult f t = none ↔ (f t = .error () ∨ f t = .ok []) := by
  rcases h : f t with e | rows
  · cases e
    simp [seriesResult, h]
  · rcases rows with _ | ⟨r, rs⟩ <;> simp [seriesResult, h]

theorem seriesResult_isSome_iff (f : String → Except Unit (List Row)) (t : String) :
    (seriesResult f t).isSome ↔ ∃ rows, f t = .ok rows ∧ rows ≠ [] := by
  rcases h : f t with e | rows
  · cases e
    simp [seriesResult, h]
  · rcases rows with _ | ⟨r, rs⟩ <;> simp [seriesResult, h]

theorem main_results_cases (inp : RunInput) (disk0 : Disk) (label : String)
    (upd fld : List String)
    (hres : (label, upd, fld) ∈ (main inp disk0).results) :
    inp.gridFiles.isEmpty = false
    ∧ ((label = "daily" ∧ upd = (stageDaily inp disk0).2.2.1
          ∧ fld = (stageDaily inp disk0).2.2.2)
       ∨ (label = "weekly" ∧ upd = (stageWeekly inp disk0).2.2.1
          ∧ fld = (stageWeekly inp disk0).2.2.2)) := by
  have h' : inp.gridFiles.isEmpty = false := by
    cases he : inp.gridFiles.isEmpty
    · rfl
    · rw [main, if_pos he] at hres
      cases hres
  refine ⟨h', ?_⟩
  rw [main_eq inp disk0 h'] at hres
  simp only [List.mem_cons, List.mem_singleton, List.not_mem_nil, or_false,
    Prod.mk.injEq] at hres
  rcases hres with ⟨h1, h2, h3⟩ | ⟨h1, h2, h3⟩
  · exact Or.inl ⟨h1, h2, h3⟩
  · exact Or.inr ⟨h1, h2, h3⟩

theorem main_trace_mem (inp : RunInput) (disk0 : Disk)
    (h' : inp.gridFiles.isEmpty = false) (e : Ev) :
    e ∈ (main inp disk0).trace ↔
      e ∈ (stageDaily inp disk0).2.1 ∨ e ∈ (stageWeekly inp disk0).2.1
        ∨ (∃ g, g ∈ gridTickers inp ∧ e = Ev.writeManifest g.1) ∨ e = Ev.writeIndex := by
  rw [main_eq inp disk0 h']
  simp only [List.mem_append, List.mem_map, List.mem_singleton, or_assoc, eq_comm]

/-- Per-interval failure classification: a failed symbol is exactly a stale
symbol whose series fetch raised or came back empty; an updated symbol had a
successful nonempty series; every symbol of a bulk request with a failed
series ends in the failed list. -/
theorem interval_failed_spec (label : String) (pool : List String) (today : String)
    (oracle : Oracle) (st : MState) (t : String) :
    (t ∈ (process_interval label label pool today oracle st).2.2.2 →
       seriesResult oracle.series t = none
       ∧ t ∉ (process_interval label label pool today oracle st).2.2.1)
    ∧ (t ∈ (process_interval label label pool today oracle st).2.2.1 →
       (seriesResult oracle.series t).isSome)
    ∧ (∀ c, c ∈ chunked (intervalToUpdate label pool today st) → t ∈ c →
        seriesResult oracle.series t = none →
        t ∈ (process_interval label label pool today oracle st).2.2.2) := by
  refine ⟨?_, ?_, ?_⟩
  · intro h
    rw [process_interval_fld] at h
    obtain ⟨h1, h2⟩ := List.mem_filter.mp h
    have hns : ¬(seriesResult oracle.series t).isSome = true := by simpa using h2
    refine ⟨Option.not_isSome_iff_eq_none.mp hns, ?_⟩
    intro hu
    rw [process_interval_upd] at hu
    exact hns (List.mem_filter.mp hu).2
  · intro h
    rw [process_interval_upd] at h
    exact (List.mem_filter.mp h).2
  · intro c hc htc hnone
    rw [process_interval_fld]
    refine List.mem_filter.mpr ⟨?_, by simp [hnone]⟩
    have hfl := chunked_flatten (intervalToUpdate label pool today st)
    rw [← hfl]
    exact List.mem_flatten.mpr ⟨c, hc, htc⟩

/-! ### Ledger-after-write pairing for whole traces -/

/-- Every ledger assignment immediately follows the artifact write of the same
ticker and interval label. -/
def lsPaired (tr : List Ev) : Prop :=
  ∀ n t l, tr[n]? = some (.ledgerSet t l) →
    ∃ m, m + 1 = n ∧ tr[m]? = some (.writeArtifact t l)

theorem lsPaired_nil : lsPaired [] := by
  intro n t l h
  simp at h

theorem lsPaired_of_lsAdjacent (l : String) {tr : List Ev} (h : lsAdjacent l l tr) :
    lsPaired tr := by
  intro n t l' hn
  obtain ⟨hl, m, hm1, hm2⟩ := h n t l' hn
  subst hl
  exact ⟨m, hm1, hm2⟩

theorem lsPaired_append {A B : List Ev} (hA : lsPaired A) (hB : lsPaired B)
    (hhd : ∀ t l, B[0]? ≠ some (Ev.ledgerSet t l)) : lsPaired (A ++ B) := by
  intro n t l h
  by_cases hn : n < A.length
  · rw [List.getElem?_append_left hn] at h
    obtain ⟨m, hm, hm2⟩ := hA n t l h
    exact ⟨m, hm, by rw [List.getElem?_append_left (by omega)]; exact hm2⟩
  · push_neg at hn
    rw [List.getElem?_append_right hn] at h
    rcases Nat.eq_or_lt_of_le hn with heq | hlt
    · rw [show n - A.length = 0 by omega] at h
      exact absurd h (hhd t l)
    · obtain ⟨m, hm, hm2⟩ := hB (n - A.length) t l h
      refine ⟨A.length + m, by omega, ?_⟩
      rw [List.getElem?_append_right (by omega), show A.length + m - A.length = m by omega]
      exact hm2

theorem chunked_ne_nil {l : List String} (h : l ≠ []) : ∃ c cs, chunked l = c :: cs := by
  rcases l with _ | ⟨x, xs⟩
  · exact absurd rfl h
  · exact ⟨_, _, rfl⟩

theorem process_interval_head (label suffix : String) (pool : List String) (today : String)
    (oracle : Oracle) (st : MState) :
    ∀ t l, ((process_interval label suffix pool today oracle st).2.1)[0]?
      ≠ some (Ev.ledgerSet t l) := by
  rw [process_interval_eq]
  by_cases he : (intervalToUpdate label pool today st).isEmpty
  · simp [he]
  · simp only [he, Bool.false_eq_true, if_false]
    intro t l h
    have htu : intervalToUpdate label pool today st ≠ [] := by
      intro hnil
      rw [hnil] at he
      exact he rfl
    obtain ⟨c, cs, hch⟩ := chunked_ne_nil htu
    rw [hch] at h
    simp at h

theorem process_interval_adj (label suffix : String) (pool : List String) (today : String)
    (oracle : Oracle) (st : MState) :
    lsAdjacent suffix label ((process_interval label suffix pool today oracle st).2.1) := by
  rw [process_interval_eq]
  by_cases he : (intervalToUpdate label pool today st).isEmpty
  · simp only [he, if_true]
    exact lsAdjacent_nil _ _
  · simp only [he, Bool.false_eq_true, if_false]
    refine lsAdjacent_append (lsAdjacent_append ?_ (pt_fold_adj _ _ _ _ _ _ _)
      (pt_fold_evs_head _ _ _ _ _ _ _)) ?_ ?_
    · apply lsAdjacent_of_no_ls
      intro t l hmem
      obtain ⟨c, _, hc⟩ := List.mem_map.mp hmem
      cases hc
    · apply lsAdjacent_of_no_ls
      intro t l hmem
      rcases List.mem_cons.mp hmem with h1 | h1
      · cases h1
      · cases List.mem_singleton.mp h1
    · intro t l h
      simp at h

theorem main_lsPaired (inp : RunInput) (disk0 : Disk) : lsPaired ((main inp disk0).trace) := by
  cases he : inp.gridFiles.isEmpty
  · rw [main_eq inp disk0 he]
    refine lsPaired_append (lsPaired_append (lsPaired_append
      (lsPaired_of_lsAdjacent _ (process_interval_adj "daily" "daily" (tickerPool inp)
        inp.today inp.oracle (stage0 inp disk0)))
      (lsPaired_of_lsAdjacent _ (process_interval_adj "weekly" "weekly" (tickerPool inp)
        inp.today inp.oracle (stageDaily inp disk0).1))
      (process_interval_head "weekly" "weekly" (tickerPool inp) inp.today inp.oracle
        (stageDaily inp disk0).1)) ?_ ?_) ?_ ?_
    · apply lsPaired_of_lsAdjacent "daily"
      apply lsAdjacent_of_no_ls
      intro t l hmem
      obtain ⟨g, _, hg⟩ := List.mem_map.mp hmem
      cases hg
    · intro t l h
      rcases hgt : gridTickers inp with _ | ⟨g, gs⟩ <;> rw [hgt] at h <;> simp at h
    · intro n t l h
      rcases n with _ | _ | k <;> simp at h
    · intro t l h
      simp at h
  · rw [main, if_pos he]
    exact lsPaired_nil

/-! ### Frames keyed on the updated list, and run-level state equalities -/

theorem process_interval_frame_ledger_upd (label suffix : String) (pool : List String)
    (today : String) (oracle : Oracle) (st : MState) (k : String)
    (h : ∀ u ∈ (process_interval label suffix pool today oracle st).2.2.1,
      k ≠ cache_key u label) :
    dictGet ((process_interval label suffix pool today oracle st).1).date_cache k
      = dictGet st.date_cache k := by
  rw [process_interval_upd] at h
  rw [process_interval_eq]
  by_cases he : (intervalToUpdate label pool today st).isEmpty
  · simp [he]
  · simp only [he, Bool.false_eq_true, if_false]
    apply pt_fold_frame_ledger
    intro t htL hsome
    apply h t
    rw [List.mem_filter]
    refine ⟨htL, ?_⟩
    rw [intervalOhlcv, dictGet_all_ohlcv, if_pos htL] at hsome
    exact hsome

theorem process_interval_frame_art_upd (label suffix : String) (pool : List String)
    (today : String) (oracle : Oracle) (st : MState) (fname : String)
    (h : ∀ u ∈ (process_interval label suffix pool today oracle st).2.2.1,
      fname ≠ artifact_file u suffix) :
    dictGet ((process_interval label suffix pool today oracle st).1).disk.artifacts fname
      = dictGet st.disk.artifacts fname := by
  rw [process_interval_upd] at h
  rw [process_interval_eq]
  by_cases he : (intervalToUpdate label pool today st).isEmpty
  · simp [he]
  · simp only [he, Bool.false_eq_true, if_false]
    apply pt_fold_frame_art
    intro t htL hsome
    apply h t
    rw [List.mem_filter]
    refine ⟨htL, ?_⟩
    rw [intervalOhlcv, dictGet_all_ohlcv, if_pos htL] at hsome
    exact hsome

theorem main_cacheFile_eq (inp : RunInput) (disk0 : Disk)
    (h' : inp.gridFiles.isEmpty = false) :
    (main inp disk0).disk.cacheFile = (stageWeekly inp disk0).1.date_cache := by
  rw [main_eq inp disk0 h']
  show (stageWeekly inp disk0).1.disk.cacheFile = _
  exact process_interval_cacheFile _ _ _ _ _ _
    (process_interval_cacheFile _ _ _ _ _ _ rfl)

theorem main_artifacts_eq (inp : RunInput) (disk0 : Disk)
    (h' : inp.gridFiles.isEmpty = false) :
    (main inp disk0).disk.artifacts = (stageWeekly inp disk0).1.disk.artifacts := by
  rw [main_eq inp disk0 h']

/-! ### Concrete fixtures used by witnesses and counterexamples -/

/-- An empty data directory. -/
def emptyDisk : Disk :=
  { artifacts := [], cacheFile := [], infoFile := [], manifests := [], gridsIndex := none }

/-- An oracle whose every request raises. -/
def failOracle : Oracle :=
  { series := fun _ => .error (), info := fun _ => .error () }

/-- A one-bar daily/weekly series. -/
def oneRow : Row := { t := "2026-10-10", o := 1, h := 1, l := 1, c := 1, v := 5 }

/-- An oracle that returns one bar for every symbol and raises on every info
request. -/
def oneRowOracle : Oracle :=
  { series := fun _ => .ok [oneRow], info := fun _ => .error () }

/-- A clean one-grid, one-symbol run where every series fetch succeeds. -/
def okInput : RunInput :=
  { gridFiles := [("tech", ["AAPL"])], today := "2026-10-12", now := "T1"
    oracle := oneRowOracle }

/-- The same run repeated later the same day: identical grids, date and
oracle, later wall-clock timestamp. -/
def okInputLater : RunInput :=
  { gridFiles := [("tech", ["AAPL"])], today := "2026-10-12", now := "T2"
    oracle := oneRowOracle }

/-- An oracle whose series fetch succeeds only for AAPL. -/
def mixedOracle : Oracle :=
  { series := fun t => if t == "AAPL" then .ok [oneRow] else .error ()
    info := fun _ => .error () }

/-- A prior-run artifact for MSFT. -/
def msftArtifact : Artifact :=
  { ticker := "MSFT", info := { shortName := "MSFT", sector := "—", industry := "—" }
    ohlcv := [] }

/-- A data directory holding a stale artifact for MSFT from an earlier run. -/
def priorDisk : Disk :=
  { artifacts := [("MSFT_daily.json", msftArtifact), ("MSFT_weekly.json", msftArtifact)]
    cacheFile := [], infoFile := [], manifests := [], gridsIndex := none }

/-- A run over one grid of three symbols where only AAPL's fetch succeeds. -/
def mixedInput : RunInput :=
  { gridFiles := [("tech", ["AAPL", "MSFT", "NVDA"])], today := "2026-10-12", now := "T1"
    oracle := mixedOracle }

/-- Two grids referencing the same symbol, everything stale. -/
def twoGridInput : RunInput :=
  { gridFiles := [("a", ["AAPL"]), ("b", ["AAPL"])], today := "2026-10-12", now := "T1"
    oracle := failOracle }

/-- 101 symbols, forcing two bulk-download chunks in one interval pass. -/
def manyTickers : List String := (List.range 101).map (fun i => "T" ++ Nat.repr i)

/-- A run whose daily pass needs two download batches. -/
def manyInput : RunInput :=
  { gridFiles := [("big", manyTickers)], today := "2026-10-12", now := "T1"
    oracle := failOracle }

/-- Is an optional event a bulk-download request? -/
def isFetchEv : Option Ev → Bool
  | some (Ev.fetch _ _) => true
  | _ => false

/-! ### Claim theorems -/

/-- C1: the staleness check `needs_update(S, I)` returns true iff the
ledger's recorded last-refresh date for (S, I) differs from today or the
artifact file for (S, I) does not exist; in particular a missing artifact
makes the pair stale even when the ledger entry says it was refreshed
today. -/
theorem C1_needs_update_spec (t l : String) (dc : List (String × String)) (today : String)
    (arts : List (String × Artifact)) :
    (needs_update t l dc today arts = true ↔
      (dictGet dc (cache_key t l) ≠ some today
        ∨ ¬(dictGet arts (artifact_file t l)).isSome))
    ∧ (dictGet dc (cache_key t l) = some today →
        (dictGet arts (artifact_file t l)).isNone →
        needs_update t l dc today arts = true) := by
  refine ⟨needs_update_true_iff t l dc today arts, fun h1 h2 => ?_⟩
  rw [needs_update_true_iff]
  rw [Option.isNone_iff_eq_none] at h2
  exact Or.inr (by simp [h2])

theorem C1_needs_update_spec_witness :
    needs_update "AAPL" "daily" [("AAPL_daily", "2026-10-12")] "2026-10-12" [] = true :=
  (C1_needs_update_spec "AAPL" "daily" [("AAPL_daily", "2026-10-12")] "2026-10-12" []).2
    (by decide) (by decide)

/-- C10: with zero discovered ticker files the run aborts with exit status 1,
with no network or file-store event recorded and the data directory left
untouched (the script only ensures the data directory exists before the
check); with at least one grid the run always completes with exit `none`,
whatever the oracle answers. -/
theorem C10_zero_grids_abort (inp : RunInput) (disk0 : Disk) :
    (inp.gridFiles = [] →
      (main inp disk0).exit = some 1 ∧ (main inp disk0).trace = []
        ∧ (main inp disk0).disk = disk0)
    ∧ (inp.gridFiles ≠ [] → (main inp disk0).exit = none) := by
  constructor
  · intro h
    refine ⟨?_, ?_, ?_⟩ <;> simp [main, h]
  · intro h
    have h' : inp.gridFiles.isEmpty = false := by
      rcases hl : inp.gridFiles with _ | _
      · exact absurd hl h
      · rfl
    rw [main_eq inp disk0 h']

theorem C10_zero_grids_abort_witness :
    ((main { gridFiles := [], today := "2026-10-12", now := "T1",
             oracle := failOracle } emptyDisk).exit = some 1
      ∧ (main { gridFiles := [], today := "2026-10-12", now := "T1",
                oracle := failOracle } emptyDisk).trace = []
      ∧ (main { gridFiles := [], today := "2026-10-12", now := "T1",
                oracle := failOracle } emptyDisk).disk = emptyDisk)
    ∧ (main { gridFiles := [("tech", ["AAPL"])], today := "2026-10-12", now := "T1",
              oracle := failOracle } emptyDisk).exit = none :=
  ⟨(C10_zero_grids_abort _ _).1 rfl, (C10_zero_grids_abort _ _).2 (by decide)⟩

/-- C6: for every grid, the manifest built for it lists exactly those of the
grid's declared symbols whose daily-interval artifact exists in the store at
manifest-build time, in the grid's originally declared order: a symbol whose
artifact was produced by an earlier run counts as available even when this
run's fetch failed, and a symbol that never produced an artifact is
omitted. -/
theorem C6_manifest_available (inp : RunInput) (disk0 : Disk)
    (hnd : (inp.gridFiles.map Prod.fst).Nodup) (name : String) (lines : List String)
    (hg : (name, lines) ∈ inp.gridFiles) :
    dictGet (main inp disk0).disk.manifests name = some
      { grid := name
        tickers := (load_tickers_from_file lines).filter (fun t =>
          (dictGet (main inp disk0).disk.artifacts (artifact_file t "daily")).isSome)
        generated := inp.now } :=
  main_manifest_lookup inp disk0 hnd name lines hg

theorem C6_manifest_available_witness :
    dictGet (main mixedInput priorDisk).disk.manifests "tech" = some
      { grid := "tech", tickers := ["AAPL", "MSFT"], generated := "T1" } :=
  (C6_manifest_available mixedInput priorDisk (by decide) "tech" ["AAPL", "MSFT", "NVDA"]
    (by decide)).trans (by decide)

/-- C4: for every interval, a symbol classified failed is exactly one whose
bulk fetch raised or returned an empty series; it is in no updated list and
receives no artifact write and no ledger assignment for that interval
anywhere in the trace; conversely, every symbol of a bulk request whose
series raised or came back empty is classified failed, a symbol classified
updated had a successful nonempty series, and the run completes (exit
`none`) despite any per-symbol failures. -/
theorem C4_failure_isolation (inp : RunInput) (disk0 : Disk) (label : String)
    (upd fld : List String)
    (hres : (label, upd, fld) ∈ (main inp disk0).results) (t : String) :
    (main inp disk0).exit = none
    ∧ (t ∈ fld →
        (inp.oracle.series t = .error () ∨ inp.oracle.series t = .ok [])
        ∧ t ∉ upd
        ∧ Ev.writeArtifact t label ∉ (main inp disk0).trace
        ∧ Ev.ledgerSet t label ∉ (main inp disk0).trace)
    ∧ (t ∈ upd → ∃ rows, inp.oracle.series t = .ok rows ∧ rows ≠ [])
    ∧ (∀ c, Ev.fetch label c ∈ (main inp disk0).trace → t ∈ c →
        (inp.oracle.series t = .error () ∨ inp.oracle.series t = .ok []) → t ∈ fld) := by
  obtain ⟨h', hcase⟩ := main_results_cases inp disk0 label upd fld hres
  have hexit : (main inp disk0).exit = none := by rw [main_eq inp disk0 h']
  rcases hcase with ⟨rfl, hupd, hfld⟩ | ⟨rfl, hupd, hfld⟩
  · subst hupd
    subst hfld
    refine ⟨hexit, ?_, ?_, ?_⟩
    · intro hf
      obtain ⟨hnone, hnupd⟩ :=
        (interval_failed_spec "daily" (tickerPool inp) inp.today inp.oracle
          (stage0 inp disk0) t).1 hf
      refine ⟨(seriesResult_none_iff _ _).mp hnone, hnupd, ?_, ?_⟩
      · intro hw
        rcases (main_trace_mem inp disk0 h' _).mp hw with h1 | h1 | ⟨g, _, h1⟩ | h1
        · exact hnupd ((process_interval_wa_mem "daily" "daily" (tickerPool inp)
            inp.today inp.oracle (stage0 inp disk0) t "daily").mp h1).2
        · exact absurd ((process_interval_wa_mem "weekly" "weekly" (tickerPool inp)
            inp.today inp.oracle (stageDaily inp disk0).1 t "daily").mp h1).1 (by decide)
        · cases h1
        · cases h1
      · intro hw
        rcases (main_trace_mem inp disk0 h' _).mp hw with h1 | h1 | ⟨g, _, h1⟩ | h1
        · exact hnupd ((process_interval_ls_mem "daily" "daily" (tickerPool inp)
            inp.today inp.oracle (stage0 inp disk0) t "daily").mp h1).2
        · exact absurd ((process_interval_ls_mem "weekly" "weekly" (tickerPool inp)
            inp.today inp.oracle (stageDaily inp disk0).1 t "daily").mp h1).1 (by decide)
        · cases h1
        · cases h1
    · intro hu
      exact (seriesResult_isSome_iff _ _).mp
        ((interval_failed_spec "daily" (tickerPool inp) inp.today inp.oracle
          (stage0 inp disk0) t).2.1 hu)
    · intro c hc htc herr
      rcases (main_trace_mem inp disk0 h' _).mp hc with h1 | h1 | ⟨g, _, h1⟩ | h1
      · obtain ⟨_, hcm⟩ := (process_interval_fetch_mem "daily" "daily" (tickerPool inp)
          inp.today inp.oracle (stage0 inp disk0) "daily" c).mp h1
        exact (interval_failed_spec "daily" (tickerPool inp) inp.today inp.oracle
          (stage0 inp disk0) t).2.2 c hcm htc ((seriesResult_none_iff _ _).mpr herr)
      · exact absurd ((process_interval_fetch_mem "weekly" "weekly" (tickerPool inp)
          inp.today inp.oracle (stageDaily inp disk0).1 "daily" c).mp h1).1 (by decide)
      · cases h1
      · cases h1
  · subst hupd
    subst hfld
    refine ⟨hexit, ?_, ?_, ?_⟩
    · intro hf
      obtain ⟨hnone, hnupd⟩ :=
        (interval_failed_spec "weekly" (tickerPool inp) inp.today inp.oracle
          (stageDaily inp disk0).1 t).1 hf
      refine ⟨(seriesResult_none_iff _ _).mp hnone, hnupd, ?_, ?_⟩
      · intro hw
        rcases (main_trace_mem inp disk0 h' _).mp hw with h1 | h1 | ⟨g, _, h1⟩ | h1
        · exact absurd ((process_interval_wa_mem "daily" "daily" (tickerPool inp)
            inp.today inp.oracle (stage0 inp disk0) t "weekly").mp h1).1 (by decide)
        · exact hnupd ((process_interval_wa_mem "weekly" "weekly" (tickerPool inp)
            inp.today inp.oracle (stageDaily inp disk0).1 t "weekly").mp h1).2
        · cases h1
        · cases h1
      · intro hw
        rcases (main_trace_mem inp disk0 h' _).mp hw with h1 | h1 | ⟨g, _, h1⟩ | h1
        · exact absurd ((process_interval_ls_mem "daily" "daily" (tickerPool inp)
            inp.today inp.oracle (stage0 inp disk0) t "weekly").mp h1).1 (by decide)
        · exact hnupd ((process_interval_ls_mem "weekly" "weekly" (tickerPool inp)
            inp.today inp.oracle (stageDaily inp disk0).1 t "weekly").mp h1).2
        · cases h1
        · cases h1
    · intro hu
      exact (seriesResult_isSome_iff _ _).mp
        ((interval_failed_spec "weekly" (tickerPool inp) inp.today inp.oracle
          (stageDaily inp disk0).1 t).2.1 hu)
    · intro c hc htc herr
      rcases (main_trace_mem inp disk0 h' _).mp hc with h1 | h1 | ⟨g, _, h1⟩ | h1
      · exact absurd ((process_interval_fetch_mem "daily" "daily" (tickerPool inp)
          inp.today inp.oracle (stage0 inp disk0) "weekly" c).mp h1).1 (by decide)
      · obtain ⟨_, hcm⟩ := (process_interval_fetch_mem "weekly" "weekly" (tickerPool inp)
          inp.today inp.oracle (stageDaily inp disk0).1 "weekly" c).mp h1
        exact (interval_failed_spec "weekly" (tickerPool inp) inp.today inp.oracle
          (stageDaily inp disk0).1 t).2.2 c hcm htc ((seriesResult_none_iff _ _).mpr herr)
      · cases h1
      · cases h1

theorem C4_failure_isolation_witness :
    (main mixedInput emptyDisk).exit = none
    ∧ (mixedOracle.series "MSFT" = .error () ∨ mixedOracle.series "MSFT" = .ok [])
    ∧ "MSFT" ∉ ["AAPL"]
    ∧ Ev.writeArtifact "MSFT" "daily" ∉ (main mixedInput emptyDisk).trace
    ∧ Ev.ledgerSet "MSFT" "daily" ∉ (main mixedInput emptyDisk).trace := by
  have h := C4_failure_isolation mixedInput emptyDisk "daily" ["AAPL"] ["MSFT", "NVDA"]
    (by decide) "MSFT"
  have h2 := h.2.1 (by decide)
  exact ⟨h.1, h2.1, h2.2.1, h2.2.2.1, h2.2.2.2⟩

theorem needs_update_congr (t l : String) (dc1 dc2 : List (String × String)) (today : String)
    (a1 a2 : List (String × Artifact))
    (hdc : dictGet dc1 (cache_key t l) = dictGet dc2 (cache_key t l))
    (ha : dictGet a1 (artifact_file t l) = dictGet a2 (artifact_file t l)) :
    needs_update t l dc1 today a1 = needs_update t l dc2 today a2 := by
  simp [needs_update, hdc, ha]

/-- C9 counterexample: AAPL's company info cannot be retrieved (the info
fetch raises), yet AAPL is not classified failed: it is updated for both
intervals and its ledger entry is set to today, so it is not retried. -/
theorem C9_counterexample :
    mixedOracle.info "AAPL" = .error ()
    ∧ (main mixedInput emptyDisk).results
        = [("daily", ["AAPL"], ["MSFT", "NVDA"]), ("weekly", ["AAPL"], ["MSFT", "NVDA"])]
    ∧ dictGet (main mixedInput emptyDisk).disk.cacheFile (cache_key "AAPL" "daily")
        = some "2026-10-12" :=
  ⟨rfl, by decide, by decide⟩

/-- C9 (amended): a symbol whose series could not be retrieved for an
interval is classified failed; its ledger entry and its artifact for that
interval are left exactly as they were before the run, and the pair is still
stale afterwards, so it is retried automatically on the next run. A failure
to retrieve company info alone does not fail the symbol: a symbol whose
series fetch succeeded nonempty is classified updated even when its info
fetch raised. -/
theorem C9_failed_symbol_retry (inp : RunInput) (disk0 : Disk) (label : String)
    (upd fld : List String)
    (hres : (label, upd, fld) ∈ (main inp disk0).results) (t : String) :
    (t ∈ fld →
        dictGet (main inp disk0).disk.cacheFile (cache_key t label)
          = dictGet disk0.cacheFile (cache_key t label)
        ∧ dictGet (main inp disk0).disk.artifacts (artifact_file t label)
          = dictGet disk0.artifacts (artifact_file t label)
        ∧ needs_update t label (main inp disk0).disk.cacheFile inp.today
            (main inp disk0).disk.artifacts = true)
    ∧ (∀ c, Ev.fetch label c ∈ (main inp disk0).trace → t ∈ c →
        inp.oracle.info t = .error () →
        ∀ rows, inp.oracle.series t = .ok rows → rows ≠ [] → t ∈ upd) := by
  obtain ⟨h', hcase⟩ := main_results_cases inp disk0 label upd fld hres
  rcases hcase with ⟨rfl, hupd, hfld⟩ | ⟨rfl, hupd, hfld⟩
  · subst hupd
    subst hfld
    constructor
    · intro hf
      obtain ⟨hnone, hnupd⟩ :=
        (interval_failed_spec "daily" (tickerPool inp) inp.today inp.oracle
          (stage0 inp disk0) t).1 hf
      have hdk : ∀ u ∈ (stageDaily inp disk0).2.2.1,
          cache_key t "daily" ≠ cache_key u "daily" := by
        intro u hu heq
        obtain rfl := cache_key_inj_label t u "daily" heq
        exact hnupd hu
      have hwk : ∀ u ∈ (stageWeekly inp disk0).2.2.1,
          cache_key t "daily" ≠ cache_key u "weekly" := fun u _ =>
        cache_key_daily_ne_weekly t u
      have hda : ∀ u ∈ (stageDaily inp disk0).2.2.1,
          artifact_file t "daily" ≠ artifact_file u "daily" := by
        intro u hu heq
        obtain rfl := artifact_file_inj_suffix t u "daily" heq
        exact hnupd hu
      have hwa : ∀ u ∈ (stageWeekly inp disk0).2.2.1,
          artifact_file t "daily" ≠ artifact_file u "weekly" := fun u _ =>
        artifact_file_daily_ne_weekly t u
      have e1 : dictGet (main inp disk0).disk.cacheFile (cache_key t "daily")
          = dictGet disk0.cacheFile (cache_key t "daily") := by
        rw [main_cacheFile_eq inp disk0 h', stageWeekly,
          process_interval_frame_ledger_upd "weekly" "weekly" (tickerPool inp) inp.today
            inp.oracle (stageDaily inp disk0).1 (cache_key t "daily") hwk,
          stageDaily,
          process_interval_frame_ledger_upd "daily" "daily" (tickerPool inp) inp.today
            inp.oracle (stage0 inp disk0) (cache_key t "daily") hdk]
        rfl
      have e2 : dictGet (main inp disk0).disk.artifacts (artifact_file t "daily")
          = dictGet disk0.artifacts (artifact_file t "daily") := by
        rw [main_artifacts_eq inp disk0 h', stageWeekly,
          process_interval_frame_art_upd "weekly" "weekly" (tickerPool inp) inp.today
            inp.oracle (stageDaily inp disk0).1 (artifact_file t "daily") hwa,
          stageDaily,
          process_interval_frame_art_upd "daily" "daily" (tickerPool inp) inp.today
            inp.oracle (stage0 inp disk0) (artifact_file t "daily") hda]
        rfl
      refine ⟨e1, e2, ?_⟩
      rw [needs_update_congr t "daily" _ disk0.cacheFile inp.today _ disk0.artifacts e1 e2]
      have htu : t ∈ intervalToUpdate "daily" (tickerPool inp) inp.today
          (stage0 inp disk0) := by
        rw [stageDaily, process_interval_fld] at hf
        exact (List.mem_filter.mp hf).1
      exact (List.mem_filter.mp htu).2
    · intro c hc htc hinfo rows hrows hne
      rcases (main_trace_mem inp disk0 h' _).mp hc with h1 | h1 | ⟨g, _, h1⟩ | h1
      · obtain ⟨_, hcm⟩ := (process_interval_fetch_mem "daily" "daily" (tickerPool inp)
          inp.today inp.oracle (stage0 inp disk0) "daily" c).mp h1
        have htu : t ∈ intervalToUpdate "daily" (tickerPool inp) inp.today
            (stage0 inp disk0) := by
          rw [← chunked_flatten (intervalToUpdate "daily" (tickerPool inp) inp.today
            (stage0 inp disk0))]
          exact List.mem_flatten.mpr ⟨c, hcm, htc⟩
        show t ∈ (stageDaily inp disk0).2.2.1
        rw [stageDaily, process_interval_upd]
        refine List.mem_filter.mpr ⟨htu, ?_⟩
        exact (seriesResult_isSome_iff _ _).mpr ⟨rows, hrows, hne⟩
      · exact absurd ((process_interval_fetch_mem "weekly" "weekly" (tickerPool inp)
          inp.today inp.oracle (stageDaily inp disk0).1 "daily" c).mp h1).1 (by decide)
      · cases h1
      · cases h1
  · subst hupd
    subst hfld
    constructor
    · intro hf
      obtain ⟨hnone, hnupd⟩ :=
        (interval_failed_spec "weekly" (tickerPool inp) inp.today inp.oracle
          (stageDaily inp disk0).1 t).1 hf
      have hwk : ∀ u ∈ (stageWeekly inp disk0).2.2.1,
          cache_key t "weekly" ≠ cache_key u "weekly" := by
        intro u hu heq
        obtain rfl := cache_key_inj_label t u "weekly" heq
        exact hnupd hu
      have hdk : ∀ u ∈ (stageDaily inp disk0).2.2.1,
          cache_key t "weekly" ≠ cache_key u "daily" := fun u _ =>
        (cache_key_daily_ne_weekly u t).symm
      have hwa : ∀ u ∈ (stageWeekly inp disk0).2.2.1,
          artifact_file t "weekly" ≠ artifact_file u "weekly" := by
        intro u hu heq
        obtain rfl := artifact_file_inj_suffix t u "weekly" heq
        exact hnupd hu
      have hda : ∀ u ∈ (stageDaily inp disk0).2.2.1,
          artifact_file t "weekly" ≠ artifact_file u "daily" := fun u _ =>
        (artifact_file_daily_ne_weekly u t).symm
      have eS1 : dictGet (stageDaily inp disk0).1.date_cache (cache_key t "weekly")
          = dictGet disk0.cacheFile (cache_key t "weekly") := by
        rw [stageDaily,
          process_interval_frame_ledger_upd "daily" "daily" (tickerPool inp) inp.today
            inp.oracle (stage0 inp disk0) (cache_key t "weekly") hdk]
        rfl
      have eS2 : dictGet (stageDaily inp disk0).1.disk.artifacts (artifact_file t "weekly")
          = dictGet disk0.artifacts (artifact_file t "weekly") := by
        rw [stageDaily,
          process_interval_frame_art_upd "daily" "daily" (tickerPool inp) inp.today
            inp.oracle (stage0 inp disk0) (artifact_file t "weekly") hda]
        rfl
      have e1 : dictGet (main inp disk0).disk.cacheFile (cache_key t "weekly")
          = dictGet disk0.cacheFile (cache_key t "weekly") := by
        rw [main_cacheFile_eq inp disk0 h', stageWeekly,
          process_interval_frame_ledger_upd "weekly" "weekly" (tickerPool inp) inp.today
            inp.oracle (stageDaily inp disk0).1 (cache_key t "weekly") hwk]
        exact eS1
      have e2 : dictGet (main inp disk0).disk.artifacts (artifact_file t "weekly")
          = dictGet disk0.artifacts (artifact_file t "weekly") := by
        rw [main_artifacts_eq inp disk0 h', stageWeekly,
          process_interval_frame_art_upd "weekly" "weekly" (tickerPool inp) inp.today
            inp.oracle (stageDaily inp disk0).1 (artifact_file t "weekly") hwa]
        exact eS2
      refine ⟨e1, e2, ?_⟩
      rw [needs_update_congr t "weekly" _ (stageDaily inp disk0).1.date_cache inp.today
        _ (stageDaily inp disk0).1.disk.artifacts (e1.trans eS1.symm) (e2.trans eS2.symm)]
      have htu : t ∈ intervalToUpdate "weekly" (tickerPool inp) inp.today
          (stageDaily inp disk0).1 := by
        rw [stageWeekly, process_interval_fld] at hf
        exact (List.mem_filter.mp hf).1
      exact (List.mem_filter.mp htu).2
    · intro c hc htc hinfo rows hrows hne
      rcases (main_trace_mem inp disk0 h' _).mp hc with h1 | h1 | ⟨g, _, h1⟩ | h1
      · exact absurd ((process_interval_fetch_mem "daily" "daily" (tickerPool inp)
          inp.today inp.oracle (stage0 inp disk0) "weekly" c).mp h1).1 (by decide)
      · obtain ⟨_, hcm⟩ := (process_interval_fetch_mem "weekly" "weekly" (tickerPool inp)
          inp.today inp.oracle (stageDaily inp disk0).1 "weekly" c).mp h1
        have htu : t ∈ intervalToUpdate "weekly" (tickerPool inp) inp.today
            (stageDaily inp disk0).1 := by
          rw [← chunked_flatten (intervalToUpdate "weekly" (tickerPool inp) inp.today
            (stageDaily inp disk0).1)]
          exact List.mem_flatten.mpr ⟨c, hcm, htc⟩
        show t ∈ (stageWeekly inp disk0).2.2.1
        rw [stageWeekly, process_interval_upd]
        refine List.mem_filter.mpr ⟨htu, ?_⟩
        exact (seriesResult_isSome_iff _ _).mpr ⟨rows, hrows, hne⟩
      · cases h1
      · cases h1

/-- How many times symbol `s` is named across the bulk-download requests of
interval `lab` in a trace. -/
def fetchMentions (tr : List Ev) (lab s : String) : Nat :=
  (tr.map (fun e => match e with
    | .fetch l c => if l = lab then c.count s else 0
    | _ => 0)).sum

/-- How many times symbol `s` is named across all bulk-download requests of a
trace, all intervals together. -/
def fetchMentionsAll (tr : List Ev) (s : String) : Nat :=
  (tr.map (fun e => match e with
    | .fetch _ c => c.count s
    | _ => 0)).sum

theorem fetchMentions_append (A B : List Ev) (lab s : String) :
    fetchMentions (A ++ B) lab s = fetchMentions A lab s + fetchMentions B lab s := by
  simp [fetchMentions]

theorem fetchMentions_eq_zero (tr : List Ev) (h : ∀ la c, Ev.fetch la c ∉ tr)
    (lab s : String) : fetchMentions tr lab s = 0 := by
  induction tr with
  | nil => rfl
  | cons e tr ih =>
    have he : ∀ la c, Ev.fetch la c ∉ tr := fun la c hm =>
      h la c (List.mem_cons_of_mem _ hm)
    have h0 := ih he
    have hval : (match e with
        | Ev.fetch l c => if l = lab then c.count s else 0
        | _ => 0) = 0 := by
      cases e
      case fetch l c => exact absurd (List.mem_cons_self _ _) (h l c)
      all_goals rfl
    simp only [fetchMentions, List.map_cons, List.sum_cons] at h0 ⊢
    rw [hval, h0]

theorem process_interval_fetchMentions (label suffix : String) (pool : List String)
    (today : String) (oracle : Oracle) (st : MState) (lab s : String) :
    fetchMentions ((process_interval label suffix pool today oracle st).2.1) lab s
      = if lab = label then (intervalToUpdate label pool today st).count s else 0 := by
  rw [process_interval_eq]
  by_cases he : (intervalToUpdate label pool today st).isEmpty
  · have he' := List.isEmpty_iff.mp he
    simp [he, he', fetchMentions]
  · simp only [he, Bool.false_eq_true, if_false]
    rw [fetchMentions_append, fetchMentions_append]
    rw [fetchMentions_eq_zero _ (fun la c hm =>
      pt_fold_no_fetch label suffix today oracle _ _ _ la c hm)]
    rw [fetchMentions_eq_zero [Ev.flushLedger label, Ev.flushInfo label]
      (by intro la c hm; rcases List.mem_cons.mp hm with h1 | h1
          · cases h1
          · cases List.mem_singleton.mp h1)]
    simp only [Nat.add_zero]
    simp only [fetchMentions, List.map_map]
    by_cases hll : lab = label
    · subst hll
      have hfun : ((fun e => match e with
          | Ev.fetch l c => if l = lab then c.count s else 0
          | _ => 0) ∘ fun c => Ev.fetch lab c) = fun c => c.count s := by
        funext c
        simp [Function.comp]
      rw [hfun, if_pos rfl]
      conv_rhs => rw [← chunked_flatten (intervalToUpdate lab pool today st)]
      rw [List.count_flatten]
    · have hll' : ¬(label = lab) := fun h => hll h.symm
      have hfun : ((fun e => match e with
          | Ev.fetch l c => if l = lab then c.count s else 0
          | _ => 0) ∘ fun c => Ev.fetch label c) = fun _ => (0 : Nat) := by
        funext c
        simp [Function.comp, hll']
      rw [hfun, if_neg hll]
      simp

/-- C2 counterexample: with two grids both containing AAPL and an empty
cache, one run issues two bulk-download requests naming AAPL — one for the
daily interval and one for the weekly interval — so a symbol is not fetched
at most once per run as stated; the grid-level deduplication only bounds it
per interval. -/
theorem C2_counterexample :
    fetchMentionsAll ((main twoGridInput emptyDisk).trace) "AAPL" = 2 := by
  decide

/-- C2 (amended): within one run, for each interval, a symbol is named at
most once across all of that interval's bulk-download requests, no matter
how many grids reference it: the grids' symbol lists are collapsed into one
deduplicated pool before the staleness filter, and the request chunks
partition the stale list. -/
theorem C2_fetch_at_most_once (inp : RunInput) (disk0 : Disk) (lab s : String) :
    fetchMentions ((main inp disk0).trace) lab s ≤ 1 := by
  cases h' : inp.gridFiles.isEmpty
  case true =>
    rw [main, if_pos h']
    exact Nat.zero_le 1
  case false =>
  rw [main_eq inp disk0 h']
  rw [fetchMentions_append, fetchMentions_append, fetchMentions_append]
  rw [fetchMentions_eq_zero ((gridTickers inp).map (fun g => Ev.writeManifest g.1))
    (by intro la c hm
        obtain ⟨g, _, hg⟩ := List.mem_map.mp hm
        cases hg)]
  rw [fetchMentions_eq_zero [Ev.writeIndex]
    (by intro la c hm
        cases List.mem_singleton.mp hm)]
  rw [stageDaily, stageWeekly, process_interval_fetchMentions,
    process_interval_fetchMentions]
  have hpool : (tickerPool inp).Nodup :=
    pySorted_nodup _ (List.nodup_dedup _)
  have hd : (intervalToUpdate "daily" (tickerPool inp) inp.today
      (stage0 inp disk0)).count s ≤ 1 :=
    List.nodup_iff_count_le_one.mp (hpool.filter _) s
  have hw : (intervalToUpdate "weekly" (tickerPool inp) inp.today
      (stageDaily inp disk0).1).count s ≤ 1 :=
    List.nodup_iff_count_le_one.mp (hpool.filter _) s
  by_cases h1 : lab = "daily"
  · subst h1
    rw [if_pos rfl, if_neg (by decide)]
    omega
  · rw [if_neg h1]
    by_cases h2 : lab = "weekly"
    · subst h2
      rw [if_pos rfl]
      omega
    · rw [if_neg h2]
      omega

theorem process_interval_flushLedger_count (label suffix : String) (pool : List String)
    (today : String) (oracle : Oracle) (st : MState) (lab : String) :
    ((process_interval label suffix pool today oracle st).2.1).count (Ev.flushLedger lab)
      ≤ if lab = label then 1 else 0 := by
  rw [process_interval_eq]
  by_cases he : (intervalToUpdate label pool today st).isEmpty
  · simp only [he, if_true]
    split <;> simp
  · simp only [he, Bool.false_eq_true, if_false]
    rw [List.count_append, List.count_append]
    have hF : ((chunked (intervalToUpdate label pool today st)).map
        (fun c => Ev.fetch label c)).count (Ev.flushLedger lab) = 0 := by
      rw [List.count_eq_zero]
      intro hm
      obtain ⟨c, _, hc⟩ := List.mem_map.mp hm
      cases hc
    have hE : ((((intervalToUpdate label pool today st)).foldl
        (process_ticker label suffix today oracle
          (intervalOhlcv label pool today oracle st)) (st, [], [], [])).2.1).count
        (Ev.flushLedger lab) = 0 := by
      rw [List.count_eq_zero]
      exact pt_fold_no_flushLedger _ _ _ _ _ _ _ _
    rw [hF, hE]
    by_cases hll : lab = label
    · subst hll
      simp [List.count_cons]
    · have hll2 : ¬(label = lab) := fun h => hll h.symm
      have h1 : (Ev.flushLedger label == Ev.flushLedger lab) = false := by
        simp [hll2]
      have h2 : (Ev.flushInfo label == Ev.flushLedger lab) = false := by simp
      simp [List.count_cons, h1, h2, hll]

theorem process_interval_fetch_then_flush (label suffix : String) (pool : List String)
    (today : String) (oracle : Oracle) (st : MState) :
    ∀ (n : Nat) (la : String) (c : List String),
      ((process_interval label suffix pool today oracle st).2.1)[n]?
        = some (Ev.fetch la c) →
      ∃ m, n < m ∧ ((process_interval label suffix pool today oracle st).2.1)[m]?
        = some (Ev.flushLedger la) := by
  rw [process_interval_eq]
  by_cases he : (intervalToUpdate label pool today st).isEmpty
  · intro n la c h
    simp [he] at h
  · simp only [he, Bool.false_eq_true, if_false]
    intro n la c h
    by_cases hn : n < (((chunked (intervalToUpdate label pool today st)).map
        (fun c => Ev.fetch label c)) ++ ((intervalToUpdate label pool today st).foldl
          (process_ticker label suffix today oracle
            (intervalOhlcv label pool today oracle st)) (st, [], [], [])).2.1).length
    · rw [List.getElem?_append_left hn] at h
      have hla : la = label := by
        by_cases hnf : n < ((chunked (intervalToUpdate label pool today st)).map
            (fun c => Ev.fetch label c)).length
        · rw [List.getElem?_append_left hnf, List.getElem?_map] at h
          rcases hcn : (chunked (intervalToUpdate label pool today st))[n]? with _ | ch
          · rw [hcn] at h
            cases h
          · rw [hcn] at h
            simp at h
            exact h.1.symm
        · push_neg at hnf
          rw [List.getElem?_append_right hnf] at h
          exact absurd (List.getElem?_mem h) (pt_fold_no_fetch _ _ _ _ _ _ _ _ _)
      subst hla
      refine ⟨_, hn, ?_⟩
      rw [List.getElem?_append_right (le_refl _), Nat.sub_self]
      rfl
    · push_neg at hn
      rw [List.getElem?_append_right hn] at h
      rcases hk : n - (((chunked (intervalToUpdate label pool today st)).map
          (fun c => Ev.fetch label c)) ++ ((intervalToUpdate label pool today st).foldl
            (process_ticker label suffix today oracle
              (intervalOhlcv label pool today oracle st)) (st, [], [], [])).2.1).length
        with _ | _ | k <;> rw [hk] at h <;> simp at h

theorem getElem?_isSome_lt {α : Type} {l : List α} {n : Nat} {a : α}
    (h : l[n]? = some a) : n < l.length := by
  by_contra h'
  rw [List.getElem?_eq_none (by omega)] at h
  cases h

set_option maxRecDepth 100000 in
/-- C8 counterexample: with 101 stale symbols the daily pass issues two
bulk-download requests back to back — the events at positions 0 and 1 of the
trace are both fetches, with no ledger flush in between — so the ledger is
not flushed after every batch; it is only flushed at the end of the
interval. -/
theorem C8_counterexample :
    isFetchEv (((main manyInput emptyDisk).trace)[0]?) = true
    ∧ isFetchEv (((main manyInput emptyDisk).trace)[1]?) = true := by
  decide

/-- C8 (amended): the ledger is flushed to durable storage once per interval
pass, after all of that interval's batches are downloaded and processed, not
after every batch: every bulk-download request is followed by a later ledger
flush of its interval label, and there is at most one ledger flush per
interval label in a run; a crash therefore loses the bookkeeping of at most
one in-flight interval. -/
theorem C8_flush_per_interval (inp : RunInput) (disk0 : Disk) :
    (∀ (n : Nat) (la : String) (c : List String),
      ((main inp disk0).trace)[n]? = some (Ev.fetch la c) →
      ∃ m, n < m ∧ ((main inp disk0).trace)[m]? = some (Ev.flushLedger la))
    ∧ (∀ la : String, ((main inp disk0).trace).count (Ev.flushLedger la) ≤ 1) := by
  cases h' : inp.gridFiles.isEmpty
  case true =>
    rw [main, if_pos h']
    constructor
    · intro n la c h
      simp at h
    · intro la
      simp
  case false =>
  rw [main_eq inp disk0 h']
  constructor
  · intro n la c h
    by_cases hn1 : n < (((stageDaily inp disk0).2.1 ++ (stageWeekly inp disk0).2.1)
        ++ (gridTickers inp).map (fun g => Ev.writeManifest g.1)).length
    · rw [List.getElem?_append_left hn1] at h
      by_cases hn2 : n < ((stageDaily inp disk0).2.1 ++ (stageWeekly inp disk0).2.1).length
      · rw [List.getElem?_append_left hn2] at h
        by_cases hn3 : n < (stageDaily inp disk0).2.1.length
        · rw [List.getElem?_append_left hn3] at h
          obtain ⟨m, hm, hflush⟩ := process_interval_fetch_then_flush "daily" "daily"
            (tickerPool inp) inp.today inp.oracle (stage0 inp disk0) n la c h
          have hmlt : m < (stageDaily inp disk0).2.1.length := getElem?_isSome_lt hflush
          refine ⟨m, hm, ?_⟩
          rw [List.getElem?_append_left (by simp only [List.length_append]; omega),
            List.getElem?_append_left (by simp only [List.length_append]; omega),
            List.getElem?_append_left hmlt]
          exact hflush
        · push_neg at hn3
          rw [List.getElem?_append_right hn3] at h
          obtain ⟨m, hm, hflush⟩ := process_interval_fetch_then_flush "weekly" "weekly"
            (tickerPool inp) inp.today inp.oracle (stageDaily inp disk0).1
            (n - (stageDaily inp disk0).2.1.length) la c h
          have hmlt : m < (stageWeekly inp disk0).2.1.length := getElem?_isSome_lt hflush
          refine ⟨(stageDaily inp disk0).2.1.length + m, by omega, ?_⟩
          rw [List.getElem?_append_left (by simp only [List.length_append]; omega),
            List.getElem?_append_left (by simp only [List.length_append]; omega),
            List.getElem?_append_right (by omega),
            show (stageDaily inp disk0).2.1.length + m
              - (stageDaily inp disk0).2.1.length = m by omega]
          exact hflush
      · push_neg at hn2
        rw [List.getElem?_append_right hn2] at h
        have hmem := List.getElem?_mem h
        obtain ⟨g, _, hg⟩ := List.mem_map.mp hmem
        cases hg
    · push_neg at hn1
      rw [List.getElem?_append_right hn1] at h
      rcases hk : n - (((stageDaily inp disk0).2.1 ++ (stageWeekly inp disk0).2.1)
          ++ (gridTickers inp).map (fun g => Ev.writeManifest g.1)).length
        with _ | k <;> rw [hk] at h <;> simp at h
  · intro la
    rw [List.count_append, List.count_append, List.count_append]
    have hC : ((gridTickers inp).map (fun g => Ev.writeManifest g.1)).count
        (Ev.flushLedger la) = 0 := by
      rw [List.count_eq_zero]
      intro hm
      obtain ⟨g, _, hg⟩ := List.mem_map.mp hm
      cases hg
    have hD : ([Ev.writeIndex] : List Ev).count (Ev.flushLedger la) = 0 := by
      rw [List.count_eq_zero]
      intro hm
      cases List.mem_singleton.mp hm
    have hA := process_interval_flushLedger_count "daily" "daily" (tickerPool inp)
      inp.today inp.oracle (stage0 inp disk0) la
    have hB := process_interval_flushLedger_count "weekly" "weekly" (tickerPool inp)
      inp.today inp.oracle (stageDaily inp disk0).1 la
    rw [stageDaily] at hB
    rw [hC, hD, stageWeekly, stageDaily]
    by_cases h1 : la = "daily"
    · subst h1
      rw [if_pos rfl] at hA
      rw [if_neg (by decide)] at hB
      omega
    · rw [if_neg h1] at hA
      by_cases h2 : la = "weekly"
      · subst h2
        rw [if_pos rfl] at hB
        omega
      · rw [if_neg h2] at hB
        omega

theorem C8_flush_per_interval_witness :
    (∃ m, 0 < m ∧ ((main mixedInput emptyDisk).trace)[m]?
        = some (Ev.flushLedger "daily"))
    ∧ ((main mixedInput emptyDisk).trace).count (Ev.flushLedger "daily") ≤ 1 :=
  ⟨(C8_flush_per_interval mixedInput emptyDisk).1 0 "daily" ["AAPL", "MSFT", "NVDA"]
    (by decide),
   (C8_flush_per_interval mixedInput emptyDisk).2 "daily"⟩

/-- C7: a ledger entry mapping (symbol, interval) to today is written only
after the symbol's artifact for that interval has been written — in the
event trace every ledger assignment is immediately preceded by the matching
artifact write — and a symbol for which no artifact write of that interval
occurred anywhere in the run keeps its ledger entry unchanged, so it is
retried on the next run. -/
theorem C7_ledger_after_write (inp : RunInput) (disk0 : Disk) :
    (∀ n t l, ((main inp disk0).trace)[n]? = some (.ledgerSet t l) →
      ∃ m, m + 1 = n ∧ ((main inp disk0).trace)[m]? = some (.writeArtifact t l))
    ∧ (∀ t l, (l = "daily" ∨ l = "weekly") →
        Ev.writeArtifact t l ∉ (main inp disk0).trace →
        dictGet (main inp disk0).disk.cacheFile (cache_key t l)
          = dictGet disk0.cacheFile (cache_key t l)) := by
  refine ⟨main_lsPaired inp disk0, ?_⟩
  intro t l hl hno
  cases h' : inp.gridFiles.isEmpty
  case true =>
    rw [main, if_pos h']
  case false =>
  rcases hl with rfl | rfl
  · have hnupd : t ∉ (stageDaily inp disk0).2.2.1 := by
      intro hu
      exact hno ((main_trace_mem inp disk0 h' _).mpr (Or.inl
        ((process_interval_wa_mem "daily" "daily" (tickerPool inp) inp.today inp.oracle
          (stage0 inp disk0) t "daily").mpr ⟨rfl, hu⟩)))
    have hdk : ∀ u ∈ (stageDaily inp disk0).2.2.1,
        cache_key t "daily" ≠ cache_key u "daily" := by
      intro u hu heq
      obtain rfl := cache_key_inj_label t u "daily" heq
      exact hnupd hu
    have hwk : ∀ u ∈ (stageWeekly inp disk0).2.2.1,
        cache_key t "daily" ≠ cache_key u "weekly" := fun u _ =>
      cache_key_daily_ne_weekly t u
    rw [main_cacheFile_eq inp disk0 h', stageWeekly,
      process_interval_frame_ledger_upd "weekly" "weekly" (tickerPool inp) inp.today
        inp.oracle (stageDaily inp disk0).1 (cache_key t "daily") hwk,
      stageDaily,
      process_interval_frame_ledger_upd "daily" "daily" (tickerPool inp) inp.today
        inp.oracle (stage0 inp disk0) (cache_key t "daily") hdk]
    rfl
  · have hnupd : t ∉ (stageWeekly inp disk0).2.2.1 := by
      intro hu
      exact hno ((main_trace_mem inp disk0 h' _).mpr (Or.inr (Or.inl
        ((process_interval_wa_mem "weekly" "weekly" (tickerPool inp) inp.today inp.oracle
          (stageDaily inp disk0).1 t "weekly").mpr ⟨rfl, hu⟩))))
    have hwk : ∀ u ∈ (stageWeekly inp disk0).2.2.1,
        cache_key t "weekly" ≠ cache_key u "weekly" := by
      intro u hu heq
      obtain rfl := cache_key_inj_label t u "weekly" heq
      exact hnupd hu
    have hdk : ∀ u ∈ (stageDaily inp disk0).2.2.1,
        cache_key t "weekly" ≠ cache_key u "daily" := fun u _ =>
      (cache_key_daily_ne_weekly u t).symm
    rw [main_cacheFile_eq inp disk0 h', stageWeekly,
      process_interval_frame_ledger_upd "weekly" "weekly" (tickerPool inp) inp.today
        inp.oracle (stageDaily inp disk0).1 (cache_key t "weekly") hwk,
      stageDaily,
      process_interval_frame_ledger_upd "daily" "daily" (tickerPool inp) inp.today
        inp.oracle (stage0 inp disk0) (cache_key t "weekly") hdk]
    rfl

theorem C7_ledger_after_write_witness :
    (∃ m, m + 1 = 3 ∧ ((main mixedInput emptyDisk).trace)[m]?
        = some (Ev.writeArtifact "AAPL" "daily"))
    ∧ dictGet (main mixedInput emptyDisk).disk.cacheFile (cache_key "MSFT" "daily")
        = dictGet emptyDisk.cacheFile (cache_key "MSFT" "daily") :=
  ⟨(C7_ledger_after_write mixedInput emptyDisk).1 3 "AAPL" "daily" (by decide),
   (C7_ledger_after_write mixedInput emptyDisk).2 "MSFT" "daily" (Or.inl rfl) (by decide)⟩

/-- C3 counterexample: a second same-day run with the same grid and a
succeeding oracle does not reproduce identical manifests — the `generated`
timestamp embedded in each manifest comes from the wall clock of the run, so
the manifest stores of the two runs differ. -/
theorem C3_counterexample :
    (main okInputLater (main okInput emptyDisk).disk).disk.manifests
      ≠ (main okInput emptyDisk).disk.manifests := by decide

/-- C3 (amended): running the pipeline twice on the same day, with the same
grids and every pool symbol's series fetch succeeding, leaves the ledger
unchanged after the second run, issues no bulk-download request during the
second run, and produces, for every declared grid, manifests identical in
grid name and ticker list; only the `generated` timestamp may differ between
the two runs' manifests. -/
theorem C3_second_run_idempotent (inp1 inp2 : RunInput) (disk0 : Disk)
    (hg : inp2.gridFiles = inp1.gridFiles)
    (ht : inp2.today = inp1.today)
    (ho : inp2.oracle = inp1.oracle)
    (hne : inp1.gridFiles.isEmpty = false)
    (hnd : (inp1.gridFiles.map Prod.fst).Nodup)
    (hok : ∀ t ∈ tickerPool inp1, (seriesResult inp1.oracle.series t).isSome) :
    ((main inp2 (main inp1 disk0).disk).disk.cacheFile = (main inp1 disk0).disk.cacheFile)
    ∧ (∀ lab c, Ev.fetch lab c ∉ (main inp2 (main inp1 disk0).disk).trace)
    ∧ (∀ name lines, (name, lines) ∈ inp1.gridFiles →
        (dictGet (main inp2 (main inp1 disk0).disk).disk.manifests name).map
            (fun m => (m.grid, m.tickers))
          = (dictGet (main inp1 disk0).disk.manifests name).map
            (fun m => (m.grid, m.tickers))) := by
  have hne2 : inp2.gridFiles.isEmpty = false := by rw [hg]; exact hne
  have hpool : tickerPool inp2 = tickerPool inp1 := by
    simp only [tickerPool, gridTickers, hg]
  have hfacts : ∀ t ∈ tickerPool inp1,
      dictGet (stageWeekly inp1 disk0).1.date_cache (cache_key t "daily") = some inp1.today
      ∧ (dictGet (stageWeekly inp1 disk0).1.disk.artifacts (artifact_file t "daily")).isSome
      ∧ dictGet (stageWeekly inp1 disk0).1.date_cache (cache_key t "weekly") = some inp1.today
      ∧ (dictGet (stageWeekly inp1 disk0).1.disk.artifacts
          (artifact_file t "weekly")).isSome := by
    intro t htmem
    have hok_t := hok t htmem
    have hd := process_interval_establish "daily" (tickerPool inp1) inp1.today inp1.oracle
      (stage0 inp1 disk0) t htmem hok_t
    have hw := process_interval_establish "weekly" (tickerPool inp1) inp1.today inp1.oracle
      (stageDaily inp1 disk0).1 t htmem hok_t
    refine ⟨?_, ?_, hw.1, hw.2⟩
    · rw [stageWeekly]
      exact process_interval_state_today _ _ _ _ _ _ _ hd.1
    · rw [stageWeekly]
      exact process_interval_state_art _ _ _ _ _ _ _ hd.2
  have hdC : (main inp1 disk0).disk.cacheFile = (stageWeekly inp1 disk0).1.date_cache :=
    main_cacheFile_eq inp1 disk0 hne
  have hdA : (main inp1 disk0).disk.artifacts = (stageWeekly inp1 disk0).1.disk.artifacts :=
    main_artifacts_eq inp1 disk0 hne
  have hneedd : ∀ u ∈ tickerPool inp2,
      needs_update u "daily" (stage0 inp2 (main inp1 disk0).disk).date_cache inp2.today
        (stage0 inp2 (main inp1 disk0).disk).disk.artifacts = false := by
    intro u hu
    rw [hpool] at hu
    rw [needs_update_false_iff]
    refine ⟨?_, ?_⟩
    · show dictGet (main inp1 disk0).disk.cacheFile (cache_key u "daily") = some inp2.today
      rw [ht, hdC]
      exact (hfacts u hu).1
    · show (dictGet (main inp1 disk0).disk.artifacts (artifact_file u "daily")).isSome
      rw [hdA]
      exact (hfacts u hu).2.1
  have hneedw : ∀ u ∈ tickerPool inp2,
      needs_update u "weekly" (stage0 inp2 (main inp1 disk0).disk).date_cache inp2.today
        (stage0 inp2 (main inp1 disk0).disk).disk.artifacts = false := by
    intro u hu
    rw [hpool] at hu
    rw [needs_update_false_iff]
    refine ⟨?_, ?_⟩
    · show dictGet (main inp1 disk0).disk.cacheFile (cache_key u "weekly") = some inp2.today
      rw [ht, hdC]
      exact (hfacts u hu).2.2.1
    · show (dictGet (main inp1 disk0).disk.artifacts (artifact_file u "weekly")).isSome
      rw [hdA]
      exact (hfacts u hu).2.2.2
  have hsd : stageDaily inp2 (main inp1 disk0).disk
      = (stage0 inp2 (main inp1 disk0).disk, [], [], []) := by
    rw [stageDaily]
    exact process_interval_skip "daily" "daily" (tickerPool inp2) inp2.today inp2.oracle
      _ hneedd
  have hsd1 : (stageDaily inp2 (main inp1 disk0).disk).1
      = stage0 inp2 (main inp1 disk0).disk := by rw [hsd]
  have hsw : stageWeekly inp2 (main inp1 disk0).disk
      = (stage0 inp2 (main inp1 disk0).disk, [], [], []) := by
    rw [stageWeekly, hsd1]
    exact process_interval_skip "weekly" "weekly" (tickerPool inp2) inp2.today inp2.oracle
      _ hneedw
  refine ⟨?_, ?_, ?_⟩
  · rw [main_cacheFile_eq inp2 (main inp1 disk0).disk hne2, hsw]
    rfl
  · intro lab c hmem
    rw [main_eq inp2 (main inp1 disk0).disk hne2] at hmem
    rw [hsd, hsw] at hmem
    simp at hmem
  · intro name lines hmem
    have hmem2 : (name, lines) ∈ inp2.gridFiles := by rw [hg]; exact hmem
    have hnd2 : (inp2.gridFiles.map Prod.fst).Nodup := by rw [hg]; exact hnd
    have harts : (main inp2 (main inp1 disk0).disk).disk.artifacts
        = (main inp1 disk0).disk.artifacts := by
      rw [main_artifacts_eq inp2 (main inp1 disk0).disk hne2, hsw]
      rfl
    rw [main_manifest_lookup inp1 disk0 hnd name lines hmem,
        main_manifest_lookup inp2 (main inp1 disk0).disk hnd2 name lines hmem2,
        harts]
    rfl

theorem C3_second_run_idempotent_witness :
    ((main okInputLater (main okInput emptyDisk).disk).disk.cacheFile
        = (main okInput emptyDisk).disk.cacheFile)
    ∧ Ev.fetch "daily" ["AAPL"] ∉ (main okInputLater (main okInput emptyDisk).disk).trace
    ∧ (dictGet (main okInputLater (main okInput emptyDisk).disk).disk.manifests "tech").map
          (fun m => (m.grid, m.tickers))
        = (dictGet (main okInput emptyDisk).disk.manifests "tech").map
          (fun m => (m.grid, m.tickers)) := by
  have h := C3_second_run_idempotent okInput okInputLater emptyDisk rfl rfl rfl rfl
    (by decide) (by decide)
  exact ⟨h.1, h.2.1 "daily" ["AAPL"], h.2.2 "tech" ["AAPL"] (by decide)⟩

/-! ### C5: the SMA windows -/

theorem list_range_map_sum (f : ℕ → ℚ) (n : ℕ) :
    ((List.range n).map f).sum = ∑ i in Finset.range n, f i := by
  induction n with
  | zero => rfl
  | succ m ih =>
      rw [List.range_succ, List.map_append, List.sum_append, Finset.sum_range_succ, ih]
      simp

theorem slice_eq_map_range (values : List ℚ) (a n : ℕ) (h : a + n ≤ values.length) :
    (values.drop a).take n = (List.range n).map (fun j => values.getD (a + j) 0) := by
  apply List.ext_getElem?
  intro j
  by_cases hj : j < n
  · have hlt : a + j < values.length := by omega
    rw [List.getElem?_take, if_pos hj, List.getElem?_drop, List.getElem?_map,
      List.getElem?_range hj]
    simp [List.getD_eq_getElem?_getD, List.getElem?_eq_getElem hlt]
  · have h1 : ((values.drop a).take n).length ≤ j := by
      simp [List.length_take]
      omega
    have h2 : (((List.range n).map (fun j => values.getD (a + j) 0)).length ≤ j) := by
      simp
      omega
    rw [List.getElem?_eq_none h1, List.getElem?_eq_none h2]

/-- The Python slice sum `sum(values[i+1-n : i+1])` of the `sma` loop body is the
sum of the values at indices `i-n+1 .. i`. -/
theorem slice_sum_eq_Icc (values : List ℚ) (n i : ℕ) (hn : 0 < n) (h1 : n - 1 ≤ i)
    (h2 : i < values.length) :
    ((values.drop (i + 1 - n)).take n).sum
      = ∑ j in Finset.Icc (i + 1 - n) i, values.getD j 0 := by
  have ha : (i + 1 - n) + n ≤ values.length := by omega
  rw [slice_eq_map_range values (i + 1 - n) n ha, list_range_map_sum,
    ← Nat.Ico_succ_right, Finset.sum_Ico_eq_sum_range,
    show i + 1 - (i + 1 - n) = n by omega]

/-- Pointwise reading of `sma`. -/
theorem sma_getD (values : List ℚ) (n i : ℕ) (hi : i < values.length) :
    (sma values n).getD i none =
      if i < n - 1 then none
      else some (round4 (((values.drop (i + 1 - n)).take n).sum / (n : ℚ))) := by
  rw [sma, List.getD_eq_getElem?_getD, List.getElem?_map, List.getElem?_range hi]
  rfl

/-- The three SMA fields of row `i` of the enriched series are exactly the
entries of `sma closes n` at index `i`, for the windows 10, 50 and 250. -/
theorem enrich_getD (rows : List Row) (i : ℕ) (hi : i < rows.length) :
    ((enrich_with_sma rows).map (fun r => r.sma10)).getD i none
        = (sma (rows.map (fun r => r.c)) 10).getD i none
    ∧ ((enrich_with_sma rows).map (fun r => r.sma50)).getD i none
        = (sma (rows.map (fun r => r.c)) 50).getD i none
    ∧ ((enrich_with_sma rows).map (fun r => r.sma250)).getD i none
        = (sma (rows.map (fun r => r.c)) 250).getD i none := by
  refine ⟨?_, ?_, ?_⟩ <;>
  · rw [enrich_with_sma]
    simp only [List.enum, List.getD_eq_getElem?_getD, List.getElem?_map,
      List.getElem?_enumFrom, List.getElem?_eq_getElem hi]
    simp

def tenRows : List Row := List.replicate 10 { t := "d", o := 2, h := 2, l := 2, c := 2, v := 1 }

/-- C5: for every closing-price sequence and every window `n ∈ {10, 50, 250}`,
the corresponding SMA field of the enriched series is `none` at every index
`i < n - 1`, and at every index `i ≥ n - 1` it is the arithmetic mean of the
closing prices at indices `i - n + 1 .. i`, rounded to 4 decimal places. -/
theorem C5_sma_spec (rows : List Row) (n : ℕ) (key : EnrichedRow → Option ℚ)
    (hk : (n = 10 ∧ key = fun r => r.sma10) ∨ (n = 50 ∧ key = fun r => r.sma50)
        ∨ (n = 250 ∧ key = fun r => r.sma250))
    (i : ℕ) (hi : i < rows.length) :
    ((enrich_with_sma rows).map key).getD i none
      = if i < n - 1 then none
        else some (round4
          ((∑ j in Finset.Icc (i + 1 - n) i, (rows.map (fun r => r.c)).getD j 0) / (n : ℚ))) := by
  have hlen : i < (rows.map (fun r => r.c)).length := by simpa using hi
  obtain ⟨rfl, rfl⟩ | ⟨rfl, rfl⟩ | ⟨rfl, rfl⟩ := hk
  · rw [(enrich_getD rows i hi).1, sma_getD _ _ _ hlen]
    by_cases h : i < 10 - 1
    · rw [if_pos h, if_pos h]
    · rw [if_neg h, if_neg h, slice_sum_eq_Icc _ 10 i (by omega) (by omega) hlen]
  · rw [(enrich_getD rows i hi).2.1, sma_getD _ _ _ hlen]
    by_cases h : i < 50 - 1
    · rw [if_pos h, if_pos h]
    · rw [if_neg h, if_neg h, slice_sum_eq_Icc _ 50 i (by omega) (by omega) hlen]
  · rw [(enrich_getD rows i hi).2.2, sma_getD _ _ _ hlen]
    by_cases h : i < 250 - 1
    · rw [if_pos h, if_pos h]
    · rw [if_neg h, if_neg h, slice_sum_eq_Icc _ 250 i (by omega) (by omega) hlen]

theorem C5_sma_spec_witness :
    9 < tenRows.length ∧
    ((enrich_with_sma tenRows).map (fun r => r.sma10)).getD 9 none
      = if 9 < 10 - 1 then none
        else some (round4 ((∑ j in Finset.Icc (9 + 1 - 10) 9,
            (tenRows.map (fun r => r.c)).getD j 0) / (10 : ℚ))) :=
  ⟨by decide, C5_sma_spec tenRows 10 (fun r => r.sma10) (Or.inl ⟨rfl, rfl⟩) 9 (by decide)⟩

theorem C9_failed_symbol_retry_witness :
    (dictGet (main mixedInput emptyDisk).disk.cacheFile (cache_key "MSFT" "daily")
       = dictGet emptyDisk.cacheFile (cache_key "MSFT" "daily")
     ∧ dictGet (main mixedInput emptyDisk).disk.artifacts (artifact_file "MSFT" "daily")
       = dictGet emptyDisk.artifacts (artifact_file "MSFT" "daily")
     ∧ needs_update "MSFT" "daily" (main mixedInput emptyDisk).disk.cacheFile "2026-10-12"
         (main mixedInput emptyDisk).disk.artifacts = true)
    ∧ "AAPL" ∈ ["AAPL"] := by
  have h := C9_failed_symbol_retry mixedInput emptyDisk "daily" ["AAPL"] ["MSFT", "NVDA"]
    (by decide) "MSFT"
  have h9 := C9_failed_symbol_retry mixedInput emptyDisk "daily" ["AAPL"] ["MSFT", "NVDA"]
    (by decide) "AAPL"
  exact ⟨h.1 (by decide),
    h9.2 ["AAPL", "MSFT", "NVDA"] (by decide) (by decide) rfl [oneRow] rfl (by decide)⟩

end StockDash
